import Mathlib

/-!
Verification development for the Service Desk Assistant agent core
(`src/module/aiagent.py` and `src/module/mcpserver.py`).

Python strings are modelled as `List Char`, Python/JSON values as the
inductive `PyVal` (mappings keep insertion order, as Python dicts do).
Machine-level caveats of the model, each noted at its definition site:
`str.isprintable`/`str.isalnum` are modelled faithfully on the code points
actually used in the theorems (ASCII plus the C0/C1 control ranges);
`int(len(s) / 2.5)` is modelled as the exact rational floor, which agrees
with the float computation for every realistic length; JSON numbers are
modelled as integers (no value in the claims involves floats).
-/

set_option maxHeartbeats 1000000

namespace SDA

abbrev Str := List Char

/-- Models Python `str.isprintable` for one character. Faithful on ASCII and
the C0/C1 control ranges (every code point used in this development); other
Unicode separator/control categories are not distinguished. -/
def pyPrintable (c : Char) : Bool :=
  decide (32 ≤ c.toNat ∧ c.toNat ≠ 127 ∧ ¬(128 ≤ c.toNat ∧ c.toNat ≤ 159))

/-- The character filter of `clean_utf8`: keep `c` iff `c.isprintable() or c in '\n\r\t'`. -/
def keepChar (c : Char) : Bool :=
  pyPrintable c || c == '\n' || c == '\r' || c == '\t'

/-- `clean_utf8` (aiagent.py:25-28), applied to strings: drop every character
that is neither printable nor newline/carriage-return/tab. -/
def clean_utf8 (s : Str) : Str := s.filter keepChar

/-- `estimate_tokens` (aiagent.py:21-22): `int(len(text) / 2.5)` with
`CHARS_PER_TOKEN = 2.5`, i.e. `len * 2 / 5` rounded toward zero. -/
def estimate_tokens (n : Nat) : Nat := n * 2 / 5

/-- Python `str.lower` on one character (faithful on ASCII; every key and
sensitive term in the source is ASCII). -/
def pyToLower (c : Char) : Char :=
  if 'A' ≤ c ∧ c ≤ 'Z' then Char.ofNat (c.toNat + 32) else c

def toLowerStr (s : Str) : Str := s.map pyToLower

/-- Python `str.isalnum` on one character (faithful on ASCII). -/
def isAlnumChar (c : Char) : Bool := c.isAlpha || c.isDigit

/-- A Python value as passed around by the agent: JSON-serializable data.
`dict` keeps entries in insertion order with unique keys, as Python does;
`nullv` is Python `None`. Numbers are modelled as integers. -/
inductive PyVal where
  | str (s : Str)
  | int (n : Int)
  | bool (b : Bool)
  | nullv
  | list (elems : List PyVal)
  | dict (entries : List (Str × PyVal))

mutual

def beqVal : PyVal → PyVal → Bool
  | .str a, .str b => a == b
  | .int a, .int b => a == b
  | .bool a, .bool b => a == b
  | .nullv, .nullv => true
  | .list xs, .list ys => beqValList xs ys
  | .dict xs, .dict ys => beqValDict xs ys
  | _, _ => false

def beqValList : List PyVal → List PyVal → Bool
  | [], [] => true
  | x :: xs, y :: ys => beqVal x y && beqValList xs ys
  | _, _ => false

def beqValDict : List (Str × PyVal) → List (Str × PyVal) → Bool
  | [], [] => true
  | (k, v) :: xs, (l, w) :: ys => k == l && beqVal v w && beqValDict xs ys
  | _, _ => false

end

mutual

theorem beqVal_iff : ∀ a b : PyVal, beqVal a b = true ↔ a = b
  | .str a, .str b => by simp [beqVal]
  | .str _, .int _ | .str _, .bool _ | .str _, .nullv | .str _, .list _ | .str _, .dict _ => by
      simp [beqVal]
  | .int a, .int b => by simp [beqVal]
  | .int _, .str _ | .int _, .bool _ | .int _, .nullv | .int _, .list _ | .int _, .dict _ => by
      simp [beqVal]
  | .bool a, .bool b => by simp [beqVal]
  | .bool _, .str _ | .bool _, .int _ | .bool _, .nullv | .bool _, .list _ | .bool _, .dict _ => by
      simp [beqVal]
  | .nullv, .nullv => by simp [beqVal]
  | .nullv, .str _ | .nullv, .int _ | .nullv, .bool _ | .nullv, .list _ | .nullv, .dict _ => by
      simp [beqVal]
  | .list xs, .list ys => by
      have h := beqValList_iff xs ys
      simp [beqVal, h]
  | .list _, .str _ | .list _, .int _ | .list _, .bool _ | .list _, .nullv | .list _, .dict _ => by
      simp [beqVal]
  | .dict xs, .dict ys => by
      have h := beqValDict_iff xs ys
      simp [beqVal, h]
  | .dict _, .str _ | .dict _, .int _ | .dict _, .bool _ | .dict _, .nullv | .dict _, .list _ => by
      simp [beqVal]

theorem beqValList_iff : ∀ a b : List PyVal, beqValList a b = true ↔ a = b
  | [], [] => by simp [beqValList]
  | [], _ :: _ => by simp [beqValList]
  | _ :: _, [] => by simp [beqValList]
  | x :: xs, y :: ys => by
      have h1 := beqVal_iff x y
      have h2 := beqValList_iff xs ys
      simp [beqValList, h1, h2]

theorem beqValDict_iff : ∀ a b : List (Str × PyVal), beqValDict a b = true ↔ a = b
  | [], [] => by simp [beqValDict]
  | [], _ :: _ => by simp [beqValDict]
  | _ :: _, [] => by simp [beqValDict]
  | (k, v) :: xs, (l, w) :: ys => by
      have h1 := beqVal_iff v w
      have h2 := beqValDict_iff xs ys
      simp [beqValDict, h1, h2, and_assoc]

end

instance : DecidableEq PyVal := fun a b => decidable_of_iff _ (beqVal_iff a b)

/-- Hex digit (lowercase) for JSON `\u00XX` escapes. -/
def hexDigit (n : Nat) : Char :=
  if n < 10 then Char.ofNat (48 + n) else Char.ofNat (87 + n)

/-- How `json.dumps(..., ensure_ascii=False)` escapes one character inside a
string literal. -/
def escJsonChar (c : Char) : Str :=
  if c = '"' then ['\\', '"']
  else if c = '\\' then ['\\', '\\']
  else if c = '\n' then ['\\', 'n']
  else if c = '\r' then ['\\', 'r']
  else if c = '\t' then ['\\', 't']
  else if c.toNat = 8 then ['\\', 'b']
  else if c.toNat = 12 then ['\\', 'f']
  else if c.toNat < 32 then ['\\', 'u', '0', '0', hexDigit (c.toNat / 16), hexDigit (c.toNat % 16)]
  else [c]

def dumpsStr (s : Str) : Str := '"' :: (s.map escJsonChar).flatten ++ ['"']

def intRepr (n : Int) : Str := (toString n).toList

mutual

/-- `json.dumps(v, ensure_ascii=False)` with the default separators
`", "` and `": "`. -/
def dumps : PyVal → Str
  | .str s => dumpsStr s
  | .int n => intRepr n
  | .bool b => if b then "true".toList else "false".toList
  | .nullv => "null".toList
  | .list xs => '[' :: dumpsList xs ++ [']']
  | .dict kvs => '\x7b' :: dumpsDict kvs ++ ['\x7d']

def dumpsList : List PyVal → Str
  | [] => []
  | [x] => dumps x
  | x :: y :: xs => dumps x ++ ',' :: ' ' :: dumpsList (y :: xs)

def dumpsDict : List (Str × PyVal) → Str
  | [] => []
  | [(k, v)] => dumpsStr k ++ ':' :: ' ' :: dumps v
  | (k, v) :: e :: kvs => dumpsStr k ++ ':' :: ' ' :: dumps v ++ ',' :: ' ' :: dumpsDict (e :: kvs)

end

/-- The default `sensitive_keys` set of `redact_sensitive_data` (aiagent.py:33).
Modelled as a list; every use below is order-independent. -/
def sensitive_keys : List Str :=
  ["access_token".toList, "token".toList, "password".toList, "secret".toList, "api_key".toList]

/-- Python `sub in s` on strings: `sub` occurs contiguously in `s`. -/
def hasInfix (p : Str) : Str → Bool
  | [] => p.isEmpty
  | c :: rest => p.isPrefixOf (c :: rest) || hasInfix p rest

/-- The key test of aiagent.py:36: `k.lower() in sensitive_keys or
any(sk in k.lower() for sk in sensitive_keys)`. -/
def keyMatches (k : Str) : Bool :=
  sensitive_keys.contains (toLowerStr k) ||
    sensitive_keys.any (fun sk => hasInfix sk (toLowerStr k))

/-- The long-string test of aiagent.py:44-46: some sensitive term occurs in
`data.lower()`. -/
def strSensitive (s : Str) : Bool :=
  sensitive_keys.any (fun sk => hasInfix sk (toLowerStr s))

def REDACTED : Str := "***REDACTED***".toList

mutual

/-- `redact_sensitive_data` (aiagent.py:31-48) with the default sensitive-key
set: redact matching dict entries, recurse through lists and dicts, replace
long alphanumeric strings containing a sensitive term, and clean every other
string; non-string scalars pass through. -/
def redact_sensitive_data : PyVal → PyVal
  | .dict kvs => .dict (redactDict kvs)
  | .list xs => .list (redactList xs)
  | .str s =>
      if 50 < s.length ∧ s.any isAlnumChar then
        if strSensitive s then .str REDACTED else .str (clean_utf8 s)
      else .str (clean_utf8 s)
  | .int n => .int n
  | .bool b => .bool b
  | .nullv => .nullv

def redactList : List PyVal → List PyVal
  | [] => []
  | x :: xs => redact_sensitive_data x :: redactList xs

def redactDict : List (Str × PyVal) → List (Str × PyVal)
  | [] => []
  | (k, v) :: kvs =>
      (k, if keyMatches k then .str REDACTED else redact_sensitive_data v) :: redactDict kvs

end

mutual

/-- A value all of whose string leaves consist only of characters kept by
`clean_utf8` (printable or newline/carriage-return/tab). -/
def cleanVal : PyVal → Bool
  | .str s => s.all keepChar
  | .list xs => cleanList xs
  | .dict kvs => cleanDict kvs
  | .int _ => true
  | .bool _ => true
  | .nullv => true

def cleanList : List PyVal → Bool
  | [] => true
  | x :: xs => cleanVal x && cleanList xs

def cleanDict : List (Str × PyVal) → Bool
  | [] => true
  | (_, v) :: kvs => cleanVal v && cleanDict kvs

end

theorem clean_utf8_of_all_kept {s : Str} (h : s.all keepChar = true) : clean_utf8 s = s := by
  simpa [clean_utf8, List.filter_eq_self, List.all_eq_true] using h

theorem redact_str_redacted :
    redact_sensitive_data (.str REDACTED) = .str REDACTED := by decide

theorem redact_str_of_clean {s : Str} (h : s.all keepChar = true) :
    redact_sensitive_data (.str s) = .str REDACTED ∨ redact_sensitive_data (.str s) = .str s := by
  have hs := clean_utf8_of_all_kept h
  by_cases h1 : 50 < s.length ∧ s.any isAlnumChar = true
  · by_cases h2 : strSensitive s = true
    · left; rw [redact_sensitive_data, if_pos h1, if_pos h2]
    · right; rw [redact_sensitive_data, if_pos h1, if_neg h2, hs]
  · right; rw [redact_sensitive_data, if_neg h1, hs]

mutual

theorem redactIdemAux : ∀ v : PyVal, cleanVal v = true →
    redact_sensitive_data (redact_sensitive_data v) = redact_sensitive_data v
  | .str s, h => by
      rcases redact_str_of_clean (by simpa [cleanVal] using h) with hr | hr
      · rw [hr, redact_str_redacted]
      · rw [hr, hr]
  | .list xs, h => by
      have := redactIdemListAux xs (by simpa [cleanVal] using h)
      simp [redact_sensitive_data, this]
  | .dict kvs, h => by
      have := redactIdemDictAux kvs (by simpa [cleanVal] using h)
      simp [redact_sensitive_data, this]
  | .int _, _ => rfl
  | .bool _, _ => rfl
  | .nullv, _ => rfl

theorem redactIdemListAux : ∀ xs : List PyVal, cleanList xs = true →
    redactList (redactList xs) = redactList xs
  | [], _ => rfl
  | x :: xs, h => by
      have h1 : cleanVal x = true := by
        have := h; simp [cleanList, Bool.and_eq_true] at this; exact this.1
      have h2 : cleanList xs = true := by
        have := h; simp [cleanList, Bool.and_eq_true] at this; exact this.2
      simp [redactList, redactIdemAux x h1, redactIdemListAux xs h2]

theorem redactIdemDictAux : ∀ kvs : List (Str × PyVal), cleanDict kvs = true →
    redactDict (redactDict kvs) = redactDict kvs
  | [], _ => rfl
  | (k, v) :: kvs, h => by
      have h1 : cleanVal v = true := by
        have := h; simp [cleanDict, Bool.and_eq_true] at this; exact this.1
      have h2 : cleanDict kvs = true := by
        have := h; simp [cleanDict, Bool.and_eq_true] at this; exact this.2
      by_cases hk : keyMatches k = true
      · simp [redactDict, hk, redactIdemDictAux kvs h2, redact_str_redacted]
      · simp [redactDict, hk, redactIdemDictAux kvs h2, redactIdemAux v h1]

end

/-- The string whose cleaning creates the sensitive substring `token`:
`"tok\x00en"` followed by 47 `'a'`s (length 53). -/
def sneakyStr : Str := 't' :: 'o' :: 'k' :: Char.ofNat 0 :: 'e' :: 'n' :: List.replicate 47 'a'

/-- A clean nested value used to witness idempotence of redaction. -/
def cleanSample : PyVal :=
  .dict [("password".toList, .str "hunter2secret".toList),
         ("items".toList, .list [.int 3, .str "ok".toList, .nullv]),
         ("inner".toList, .dict [("api_key_id".toList, .bool true)])]

/-- C4, counterexample: redaction is not idempotent. For the 53-character
string `"tok\x00en" ++ "a"*47` the first pass only strips the non-printable
`\x00`, producing `"token" ++ "a"*47`, which the second pass replaces by the
redaction marker because cleaning created the sensitive substring `token`. -/
theorem C4_redact_not_idempotent :
    redact_sensitive_data (redact_sensitive_data (.str sneakyStr)) ≠
      redact_sensitive_data (.str sneakyStr) := by decide

/-- C4 (amended): redaction is idempotent on every value whose string leaves
contain only characters kept by the cleaning step (printable characters plus
newline, carriage return and tab); on such values applying
`redact_sensitive_data` twice equals applying it once. -/
theorem C4_redact_idempotent_on_clean (v : PyVal) (h : cleanVal v = true) :
    redact_sensitive_data (redact_sensitive_data v) = redact_sensitive_data v :=
  redactIdemAux v h

/-- Witness for C4 (amended) at a concrete nested value. -/
theorem C4_redact_idempotent_on_clean_witness :
    cleanVal cleanSample = true ∧
      redact_sensitive_data (redact_sensitive_data cleanSample) =
        redact_sensitive_data cleanSample :=
  ⟨by decide, C4_redact_idempotent_on_clean cleanSample (by decide)⟩

example : redact_sensitive_data (.dict [("password".toList, .str "hi".toList)]) =
    .dict [("password".toList, .str REDACTED)] := by decide

/-! ### `json.loads`

A model of Python's strict JSON decoder, used by the code in
`_compress_messages_if_needed` (aiagent.py:123) and for tool-call arguments
(aiagent.py:249). Caveats, all irrelevant to the inputs appearing in the
theorems below: numbers are modelled as integers (a fraction or exponent
makes the surrounding parse fail instead of producing a float), `NaN`/
`Infinity` constants are not modelled, surrogate-pair `\uXXXX` joining is
not modelled, and duplicate object keys are kept instead of last-wins. -/

def isWsChar (c : Char) : Bool := c == ' ' || c == '\t' || c == '\n' || c == '\r'

def skipWs : Str → Str
  | [] => []
  | c :: rest => if isWsChar c then skipWs rest else c :: rest

def hexVal (c : Char) : Option Nat :=
  if '0' ≤ c ∧ c ≤ '9' then some (c.toNat - 48)
  else if 'a' ≤ c ∧ c ≤ 'f' then some (c.toNat - 87)
  else if 'A' ≤ c ∧ c ≤ 'F' then some (c.toNat - 55)
  else none

def parseHex4 : Str → Option (Nat × Str)
  | a :: b :: c :: d :: rest => do
      let va ← hexVal a
      let vb ← hexVal b
      let vc ← hexVal c
      let vd ← hexVal d
      some (va * 4096 + vb * 256 + vc * 16 + vd, rest)
  | _ => none

/-- Body of a JSON string literal, after the opening quote: unescape up to the
closing quote, rejecting raw control characters (strict mode). -/
def parseStrBody : Nat → Str → Option (Str × Str)
  | 0, _ => none
  | _ + 1, [] => none
  | fuel + 1, c :: rest =>
      if c = '"' then some ([], rest)
      else if c = '\\' then
        match rest with
        | [] => none
        | e :: rest2 =>
            if e = '"' ∨ e = '\\' ∨ e = '/' then
              (parseStrBody fuel rest2).map (fun (cs, r) => (e :: cs, r))
            else if e = 'n' then (parseStrBody fuel rest2).map (fun (cs, r) => ('\n' :: cs, r))
            else if e = 't' then (parseStrBody fuel rest2).map (fun (cs, r) => ('\t' :: cs, r))
            else if e = 'r' then (parseStrBody fuel rest2).map (fun (cs, r) => ('\r' :: cs, r))
            else if e = 'b' then
              (parseStrBody fuel rest2).map (fun (cs, r) => (Char.ofNat 8 :: cs, r))
            else if e = 'f' then
              (parseStrBody fuel rest2).map (fun (cs, r) => (Char.ofNat 12 :: cs, r))
            else if e = 'u' then
              match parseHex4 rest2 with
              | some (n, r2) => (parseStrBody fuel r2).map (fun (cs, r) => (Char.ofNat n :: cs, r))
              | none => none
            else none
      else if c.toNat < 32 then none
      else (parseStrBody fuel rest).map (fun (cs, r) => (c :: cs, r))

/-- A JSON natural-number literal: a digit run without a redundant leading
zero. -/
def parseNatLit (s : Str) : Option (Nat × Str) :=
  let ds := s.takeWhile Char.isDigit
  if ds.isEmpty then none
  else if 1 < ds.length ∧ ds.headD '0' = '0' then none
  else some (ds.foldl (fun a c => a * 10 + (c.toNat - 48)) 0, s.drop ds.length)

mutual

def parseVal : Nat → Str → Option (PyVal × Str)
  | 0, _ => none
  | fuel + 1, s =>
      match skipWs s with
      | [] => none
      | '"' :: rest =>
          (parseStrBody (rest.length + 1) rest).map (fun (cs, r) => (.str cs, r))
      | '[' :: rest =>
          match skipWs rest with
          | ']' :: r => some (.list [], r)
          | _ => (parseElems fuel rest).map (fun (xs, r) => (.list xs, r))
      | '\x7b' :: rest =>
          match skipWs rest with
          | '\x7d' :: r => some (.dict [], r)
          | _ => (parseMembers fuel rest).map (fun (kvs, r) => (.dict kvs, r))
      | 't' :: rest =>
          if "rue".toList.isPrefixOf rest then some (.bool true, rest.drop 3) else none
      | 'f' :: rest =>
          if "alse".toList.isPrefixOf rest then some (.bool false, rest.drop 4) else none
      | 'n' :: rest =>
          if "ull".toList.isPrefixOf rest then some (.nullv, rest.drop 3) else none
      | '-' :: rest =>
          (parseNatLit rest).map (fun (n, r) => (.int (-(n : Int)), r))
      | c :: rest =>
          if c.isDigit then (parseNatLit (c :: rest)).map (fun (n, r) => (.int (n : Int), r))
          else none

def parseElems : Nat → Str → Option (List PyVal × Str)
  | 0, _ => none
  | fuel + 1, s => do
      let (v, r) ← parseVal fuel s
      match skipWs r with
      | ',' :: r2 => (parseElems fuel r2).map (fun (xs, r3) => (v :: xs, r3))
      | ']' :: r2 => some ([v], r2)
      | _ => none

def parseMembers : Nat → Str → Option (List (Str × PyVal) × Str)
  | 0, _ => none
  | fuel + 1, s => do
      match skipWs s with
      | '"' :: rest => do
          let (k, r1) ← parseStrBody (rest.length + 1) rest
          match skipWs r1 with
          | ':' :: r2 => do
              let (v, r3) ← parseVal fuel r2
              match skipWs r3 with
              | ',' :: r4 => (parseMembers fuel r4).map (fun (kvs, r) => ((k, v) :: kvs, r))
              | '\x7d' :: r4 => some ([(k, v)], r4)
              | _ => none
          | _ => none
      | _ => none

end

/-- `json.loads` on a whole document: parse one value, allow trailing
whitespace only; anything else raises in Python, modelled as `none`. -/
def json_loads (s : Str) : Option PyVal :=
  match parseVal (s.length + 1) s with
  | some (v, rest) => if (skipWs rest).isEmpty then some v else none
  | none => none

example : json_loads "\x7b\"a\": [1, true, null], \"b\": \"x\\ny\"\x7d".toList =
    some (.dict [("a".toList, .list [.int 1, .bool true, .nullv]),
                 ("b".toList, .str ['x', '\n', 'y'])]) := by decide

example : json_loads "not json".toList = Option.none := by decide

example : json_loads "-12".toList = some (.int (-12)) := by decide

/-! ### Streamed tool-call fragment assembly (aiagent.py:204-216)

One delta may carry several tool-call fragments, each with a per-turn
`index`; absent `id`/`name`/`arguments` fields are falsy in Python and are
modelled as the empty string. -/

structure DeltaToolCall where
  index : Nat
  tcId : Str
  name : Str
  args : Str
deriving DecidableEq, Repr

structure ToolAcc where
  tcId : Str
  name : Str
  args : Str
deriving DecidableEq, Repr

def emptyAcc : ToolAcc := ⟨[], [], []⟩

/-- The per-fragment update of aiagent.py:210-216: `id` and `name` are
assigned when the fragment supplies a non-empty one, `arguments` is
concatenated. -/
def updAcc (a : ToolAcc) (tc : DeltaToolCall) : ToolAcc :=
  { tcId := if tc.tcId.isEmpty then a.tcId else tc.tcId
    name := if tc.name.isEmpty then a.name else tc.name
    args := if tc.args.isEmpty then a.args else a.args ++ tc.args }

/-- Update the (unique) entry for key `i` in place. -/
def updateKey (col : List (Nat × ToolAcc)) (i : Nat) (f : ToolAcc → ToolAcc) :
    List (Nat × ToolAcc) :=
  match col with
  | [] => []
  | (k, v) :: tl => if k = i then (k, f v) :: tl else (k, v) :: updateKey tl i f

/-- One step of the accumulator dict `collected_tool_calls`, modelled as an
association list in insertion order (Python dicts preserve it; keys are
unique by construction): initialize the entry for a fresh index, then apply
the field updates. -/
def collectFrag (col : List (Nat × ToolAcc)) (tc : DeltaToolCall) : List (Nat × ToolAcc) :=
  if (col.lookup tc.index).isSome then
    updateKey col tc.index (fun a => updAcc a tc)
  else
    col ++ [(tc.index, updAcc emptyAcc tc)]

/-- Accumulate a whole turn's fragments in arrival order. -/
def collectFrags (frags : List DeltaToolCall) : List (Nat × ToolAcc) :=
  frags.foldl collectFrag []

def applyFrags (a : ToolAcc) (fs : List DeltaToolCall) : ToolAcc :=
  fs.foldl updAcc a

/-- From the claim's words: the concatenation, in arrival order, of the
argument-string fragments supplied for index `i`. -/
def argsConcat (frags : List DeltaToolCall) (i : Nat) : Str :=
  (((frags.filter (fun tc => tc.index == i))).map (fun tc => tc.args)).flatten

/-- From the claim's words: the concatenation, in arrival order, of the name
fragments supplied for index `i`. -/
def namesConcat (frags : List DeltaToolCall) (i : Nat) : Str :=
  (((frags.filter (fun tc => tc.index == i))).map (fun tc => tc.name)).flatten

/-- What the code actually keeps as the name: the last non-empty name
fragment supplied for index `i` (empty if none). -/
def lastName (frags : List DeltaToolCall) (i : Nat) : Str :=
  (frags.filter (fun tc => tc.index == i)).foldl
    (fun n tc => if tc.name.isEmpty then n else tc.name) []

theorem updAcc_tcId (a : ToolAcc) (tc : DeltaToolCall) :
    (updAcc a tc).tcId = if tc.tcId = [] then a.tcId else tc.tcId := by
  unfold updAcc
  by_cases h : tc.tcId = [] <;> simp [h]

theorem updAcc_name (a : ToolAcc) (tc : DeltaToolCall) :
    (updAcc a tc).name = if tc.name = [] then a.name else tc.name := by
  unfold updAcc
  by_cases h : tc.name = [] <;> simp [h]

theorem updAcc_args (a : ToolAcc) (tc : DeltaToolCall) :
    (updAcc a tc).args = a.args ++ tc.args := by
  unfold updAcc
  by_cases h : tc.args = [] <;> simp [h]

theorem lookup_updateKey_ne {col : List (Nat × ToolAcc)} {i j : Nat} {f : ToolAcc → ToolAcc}
    (h : i ≠ j) : (updateKey col j f).lookup i = col.lookup i := by
  induction col with
  | nil => rfl
  | cons e tl ih =>
      obtain ⟨k, v⟩ := e
      by_cases hk : k = j
      · subst hk
        have hik : (i == k) = false := by simp [h]
        simp [updateKey, List.lookup, hik]
      · by_cases hik : (i == k) = true
        · simp [updateKey, hk, List.lookup, hik]
        · simp [updateKey, hk, List.lookup, hik, ih]

theorem lookup_updateKey_eq {col : List (Nat × ToolAcc)} {j : Nat} {f : ToolAcc → ToolAcc} :
    (updateKey col j f).lookup j = (col.lookup j).map f := by
  induction col with
  | nil => rfl
  | cons e tl ih =>
      obtain ⟨k, v⟩ := e
      by_cases hk : k = j
      · subst hk
        simp [updateKey, List.lookup]
      · have hjk : (j == k) = false := beq_eq_false_iff_ne.mpr (fun hh => hk hh.symm)
        simp [updateKey, hk, List.lookup, hjk, ih]

theorem lookup_append_single_ne {col : List (Nat × ToolAcc)} {i j : Nat} {a : ToolAcc}
    (h : i ≠ j) : (col ++ [(j, a)]).lookup i = col.lookup i := by
  induction col with
  | nil => simp [List.lookup, show (i == j) = false by simp [h]]
  | cons e tl ih =>
      obtain ⟨k, v⟩ := e
      by_cases hik : (i == k) = true
      · simp [List.lookup, hik]
      · simp [List.lookup, hik, ih]

theorem lookup_append_single_eq {col : List (Nat × ToolAcc)} {j : Nat} {a : ToolAcc}
    (h : col.lookup j = Option.none) : (col ++ [(j, a)]).lookup j = some a := by
  induction col with
  | nil => simp [List.lookup]
  | cons e tl ih =>
      obtain ⟨k, v⟩ := e
      by_cases hjk : (j == k) = true
      · simp [List.lookup, hjk] at h
      · rw [Bool.not_eq_true] at hjk
        simp only [List.lookup, hjk, List.cons_append] at h ⊢
        exact ih h

theorem lookup_collectFrag_ne {col : List (Nat × ToolAcc)} {tc : DeltaToolCall} {i : Nat}
    (h : i ≠ tc.index) : (collectFrag col tc).lookup i = col.lookup i := by
  unfold collectFrag
  split
  · exact lookup_updateKey_ne h
  · exact lookup_append_single_ne h

theorem lookup_collectFrag_eq {col : List (Nat × ToolAcc)} {tc : DeltaToolCall} :
    (collectFrag col tc).lookup tc.index =
      some (updAcc ((col.lookup tc.index).getD emptyAcc) tc) := by
  unfold collectFrag
  split
  case isTrue h =>
    rw [lookup_updateKey_eq]
    cases hc : col.lookup tc.index
    · rw [hc] at h
      simp at h
    · simp [hc]
  case isFalse h =>
    cases hc : col.lookup tc.index
    · rw [lookup_append_single_eq hc]
      simp [hc]
    · rw [hc] at h
      simp at h

theorem lookup_collectFrags_aux (frags : List DeltaToolCall) (col : List (Nat × ToolAcc))
    (i : Nat) :
    (frags.foldl collectFrag col).lookup i =
      match col.lookup i, frags.filter (fun tc => tc.index == i) with
      | some a, fs => some (applyFrags a fs)
      | none, [] => none
      | none, f :: fs => some (applyFrags (updAcc emptyAcc f) fs) := by
  induction frags generalizing col with
  | nil => cases h : col.lookup i <;> simp [applyFrags, h]
  | cons tc rest ih =>
      rw [List.foldl_cons, ih (collectFrag col tc)]
      by_cases hidx : tc.index = i
      · subst hidx
        rw [lookup_collectFrag_eq, List.filter_cons_of_pos (by simp)]
        cases h : col.lookup tc.index <;> simp [h, applyFrags]
      · rw [lookup_collectFrag_ne (fun hh => hidx hh.symm),
          List.filter_cons_of_neg (by simp [hidx])]

theorem applyFrags_args (a : ToolAcc) (fs : List DeltaToolCall) :
    (applyFrags a fs).args = a.args ++ (fs.map (fun tc => tc.args)).flatten := by
  induction fs generalizing a with
  | nil => simp [applyFrags]
  | cons f rest ih =>
      simp only [applyFrags, List.foldl_cons] at ih ⊢
      rw [ih, updAcc_args]
      simp [List.append_assoc]

theorem applyFrags_name (a : ToolAcc) (fs : List DeltaToolCall) :
    (applyFrags a fs).name =
      fs.foldl (fun n tc => if tc.name.isEmpty then n else tc.name) a.name := by
  induction fs generalizing a with
  | nil => simp [applyFrags]
  | cons f rest ih =>
      simp only [applyFrags, List.foldl_cons] at ih ⊢
      rw [ih, updAcc_name]
      by_cases h : f.name = [] <;> simp [h]

example : dumps (.dict [("a".toList, .int 1), ("b".toList, .list [.bool true, .nullv])]) =
    "\x7b\"a\": 1, \"b\": [true, null]\x7d".toList := by decide

/-- Two fragments for index 0 whose name arrives split across deltas. -/
def fragsX : List DeltaToolCall :=
  [⟨0, "call_1".toList, "get_".toList, "\x7b\"city\": ".toList⟩,
   ⟨0, [], "weather".toList, "\"SF\"\x7d".toList⟩]

/-- Two fragments for index 0: whole name in the first delta, argument string
split across both. -/
def fragsW : List DeltaToolCall :=
  [⟨0, "call_9".toList, "shell_execute".toList, "\x7b\"command\":".toList⟩,
   ⟨0, [], [], " \"ls\"\x7d".toList⟩]

def accW : ToolAcc := ⟨"call_9".toList, "shell_execute".toList, "\x7b\"command\": \"ls\"\x7d".toList⟩

/-- C1, counterexample: when the name arrives in two fragments (`"get_"` then
`"weather"`), the assembled accumulator keeps only the last non-empty name
fragment (`"weather"`), not the concatenation `"get_weather"`: line 214
assigns `name` instead of concatenating it. The argument string is
concatenated as claimed. -/
theorem C1_name_not_concatenation :
    (collectFrags fragsX).lookup 0 =
      some ⟨"call_1".toList, "weather".toList, "\x7b\"city\": \"SF\"\x7d".toList⟩ ∧
    "weather".toList ≠ namesConcat fragsX 0 := by decide

/-- C1 (amended): for every sequence of streamed fragments, the assembled
accumulator for an index carries the concatenation, in arrival order, of the
argument-string fragments for that index, and the *last non-empty* name
fragment for that index (names are assigned, not concatenated). -/
theorem C1_fragment_assembly (frags : List DeltaToolCall) (i : Nat) (acc : ToolAcc)
    (h : (collectFrags frags).lookup i = some acc) :
    acc.args = argsConcat frags i ∧ acc.name = lastName frags i := by
  unfold collectFrags at h
  rw [lookup_collectFrags_aux frags [] i] at h
  simp only [List.lookup] at h
  cases hf : frags.filter (fun tc => tc.index == i) with
  | nil => rw [hf] at h; exact absurd h (by simp)
  | cons f fs =>
      rw [hf] at h
      have hacc : acc = applyFrags (updAcc emptyAcc f) fs := by
        injection h with h'
        exact h'.symm
      constructor
      · rw [hacc, applyFrags_args, updAcc_args]
        unfold argsConcat
        rw [hf]
        simp [emptyAcc]
      · rw [hacc, applyFrags_name, updAcc_name]
        unfold lastName
        rw [hf, List.foldl_cons]
        have : (emptyAcc.name : Str) = [] := rfl
        by_cases hn : f.name = [] <;> simp [hn, List.isEmpty_iff, emptyAcc]

/-- Witness for C1 (amended) at a concrete two-delta fragment sequence. -/
theorem C1_fragment_assembly_witness :
    (collectFrags fragsW).lookup 0 = some accW ∧
      (accW.args = argsConcat fragsW 0 ∧ accW.name = lastName fragsW 0) :=
  ⟨by decide, C1_fragment_assembly fragsW 0 accW (by decide)⟩

/-! ### Tool dispatch (aiagent.py:93-110, mcpserver.py:60-68)

A loaded MCP service is modelled as its name, loaded flag and tool table
(tool functions are total: `execute_tool` catches every exception a tool
raises and turns it into an error dict, so the claims below never depend on
a tool raising). -/

def errDict (msg : Str) : PyVal := .dict [("error".toList, .str msg)]

structure MCPServiceM where
  name : Str
  loaded : Bool
  tools : List (Str × (PyVal → PyVal))

/-- Python `tool_name.split('_', 1)`: `none` models the single-element result
(no separator present); otherwise the text before the first `'_'` and the
entire remainder. -/
def split_once_underscore : Str → Option (Str × Str)
  | [] => Option.none
  | c :: rest =>
      if c = '_' then some ([], rest)
      else (split_once_underscore rest).map (fun p => (c :: p.1, p.2))

/-- `MCPService.call_tool` (mcpserver.py:60-68) as observed through
`execute_tool`'s try/except: a raised `RuntimeError`/`ValueError` becomes an
error dict (aiagent.py:108-110). -/
def call_tool (svc : MCPServiceM) (fn : Str) (args : PyVal) : PyVal :=
  if svc.loaded = false then errDict ("MCP服务未加载: ".toList ++ svc.name)
  else
    match svc.tools.lookup fn with
    | Option.none => errDict ("工具不存在: ".toList ++ fn)
    | some f => f args

/-- `AIAgent.execute_tool` (aiagent.py:93-110): split the fully-qualified
name at the first underscore, look up the service and the function, dispatch. -/
def execute_tool (services : Option (List (Str × MCPServiceM))) (tool_name : Str)
    (args : PyVal) : PyVal :=
  match services with
  | Option.none => errDict "MCP管理器未配置".toList
  | some svcs =>
      match split_once_underscore tool_name with
      | Option.none => errDict ("无效的工具名称: ".toList ++ tool_name)
      | some (service_name, func_name) =>
          match svcs.lookup service_name with
          | Option.none => errDict ("MCP服务不存在: ".toList ++ service_name)
          | some svc =>
              if (svc.tools.lookup func_name).isNone then
                errDict ("工具不存在: ".toList ++ func_name)
              else call_tool svc func_name args

theorem split_once_underscore_spec (m f : Str) (hm : '_' ∉ m) :
    split_once_underscore (m ++ '_' :: f) = some (m, f) := by
  induction m with
  | nil => simp [split_once_underscore]
  | cons c rest ih =>
      have hc : c ≠ '_' := fun h => hm (h ▸ List.mem_cons_self c rest)
      have hrest : '_' ∉ rest := fun h => hm (List.mem_cons_of_mem c h)
      simp [split_once_underscore, hc, ih hrest]

/-- C7: for a fully-qualified tool name `m ++ "_" ++ f` whose module part
contains no underscore, dispatch resolves the module as `m` and the function
as the entire remainder `f` (which may itself contain underscores), and when
the named service is loaded and exposes `f`, invokes that function with the
supplied arguments. -/
theorem C7_dispatch_split (svcs : List (Str × MCPServiceM)) (m f : Str)
    (svc : MCPServiceM) (impl : PyVal → PyVal) (args : PyVal)
    (hm : '_' ∉ m)
    (hsvc : svcs.lookup m = some svc)
    (hfn : svc.tools.lookup f = some impl)
    (hload : svc.loaded = true) :
    split_once_underscore (m ++ '_' :: f) = some (m, f) ∧
      execute_tool (some svcs) (m ++ '_' :: f) args = impl args := by
  have hsplit := split_once_underscore_spec m f hm
  refine ⟨hsplit, ?_⟩
  unfold execute_tool
  rw [hsplit]
  simp [hsvc, hfn, call_tool, hload]

/-- The service table for the C7 witness: a `git` service whose tool
`repo_list` has an underscore inside the function part. -/
def gitSvc : MCPServiceM :=
  ⟨"git".toList, true, [("repo_list".toList, fun _ => .str "ok".toList)]⟩

def svcsW : List (Str × MCPServiceM) := [("git".toList, gitSvc)]

/-- Witness for C7: dispatching `git_repo_list` splits into module `git` and
function `repo_list` and invokes the function. -/
theorem C7_dispatch_split_witness :
    split_once_underscore ("git".toList ++ '_' :: "repo_list".toList) =
        some ("git".toList, "repo_list".toList) ∧
      execute_tool (some svcsW) ("git".toList ++ '_' :: "repo_list".toList) (.dict []) =
        .str "ok".toList :=
  C7_dispatch_split svcsW "git".toList "repo_list".toList gitSvc
    (fun _ => .str "ok".toList) (.dict []) (by decide) rfl rfl rfl

/-! ### History compression (aiagent.py:112-130)

Transcript messages are modelled directly as `PyVal` dicts, exactly the
dicts the orchestrator appends. -/

/-- Python `msg.get(k)` on a dict. -/
def msgGet (m : PyVal) (k : Str) : Option PyVal :=
  match m with
  | .dict kvs => kvs.lookup k
  | _ => Option.none

/-- `msg.get("content", "")`, for transcripts whose contents are strings. -/
def msgContent (m : PyVal) : Str :=
  match msgGet m "content".toList with
  | some (.str s) => s
  | _ => []

def isToolRole (m : PyVal) : Bool :=
  msgGet m "role".toList == some (.str "tool".toList)

/-- Python `{**msg, k: v}` when `msg` already has key `k`: keep positions,
replace the value. -/
def pySet (m : PyVal) (k : Str) (v : PyVal) : PyVal :=
  match m with
  | .dict kvs =>
      if (kvs.lookup k).isSome then
        .dict (kvs.map (fun e => if e.1 == k then (e.1, v) else e))
      else .dict (kvs ++ [(k, v)])
  | other => other

/-- The transcript-size estimate of aiagent.py:113:
`sum(estimate_tokens(json.dumps(m, ensure_ascii=False)) for m in messages)`. -/
def totalTokens (messages : List PyVal) : Nat :=
  (messages.map (fun m => estimate_tokens (dumps m).length)).sum

/-- `list(result.keys())[:10] if isinstance(result, dict) else []`
(aiagent.py:124). -/
def summaryKeys : PyVal → List PyVal
  | .dict kvs => (kvs.map (fun e => PyVal.str e.1)).take 10
  | _ => []

/-- The summary object of aiagent.py:124. -/
def compressedSummary (result : PyVal) : PyVal :=
  .dict [("compressed".toList, .bool true),
         ("keys".toList, .list (summaryKeys result)),
         ("note".toList, .str "结果已压缩".toList)]

/-- The per-message step of the compression loop (aiagent.py:118-129): a
tool-role message whose content exceeds 10000 estimated tokens and parses as
JSON gets its content replaced by the serialized summary; a parse failure
(or any other message) leaves the message unchanged. -/
def compressMsg (msg : PyVal) : PyVal :=
  if isToolRole msg ∧ 10000 < estimate_tokens (msgContent msg).length then
    match json_loads (msgContent msg) with
    | some result => pySet msg "content".toList (.str (dumps (compressedSummary result)))
    | Option.none => msg
  else msg

/-- `_compress_messages_if_needed` (aiagent.py:112-130). -/
def compress_messages_if_needed (messages : List PyVal) (max_tokens : Nat) : List PyVal :=
  if totalTokens messages ≤ max_tokens then messages
  else messages.map compressMsg

theorem estimate_tokens_mono {m n : Nat} (h : m ≤ n) :
    estimate_tokens m ≤ estimate_tokens n :=
  Nat.div_le_div_right (Nat.mul_le_mul_right 2 h)

theorem flatten_map_esc_of_plain {s : Str} (h : ∀ c ∈ s, escJsonChar c = [c]) :
    (s.map escJsonChar).flatten = s := by
  induction s with
  | nil => rfl
  | cons c rest ih =>
      rw [List.map_cons, List.flatten_cons, h c (List.mem_cons_self c rest),
        ih (fun d hd => h d (List.mem_cons_of_mem c hd))]
      rfl

theorem dumpsStr_replicate_a (n : Nat) :
    dumpsStr (List.replicate n 'a') = '"' :: List.replicate n 'a' ++ ['"'] := by
  unfold dumpsStr
  rw [flatten_map_esc_of_plain]
  intro c hc
  rw [List.eq_of_mem_replicate hc]
  decide

theorem length_dumps_str_replicate_a (n : Nat) :
    (dumps (.str (List.replicate n 'a'))).length = n + 2 := by
  show (dumpsStr _).length = _
  rw [dumpsStr_replicate_a]
  simp

theorem length_dumps_dict (kvs : List (Str × PyVal)) :
    (dumps (.dict kvs)).length = (dumpsDict kvs).length + 2 := by
  show ('\x7b' :: dumpsDict kvs ++ ['\x7d']).length = _
  simp

theorem dumpsDict_length_ge {kvs : List (Str × PyVal)} {k : Str} {v : PyVal}
    (h : (k, v) ∈ kvs) : (dumps v).length ≤ (dumpsDict kvs).length := by
  induction kvs with
  | nil => cases h
  | cons hd tl ih =>
      obtain ⟨k1, v1⟩ := hd
      rcases List.mem_cons.mp h with heq | hmem
      · cases heq
        cases tl with
        | nil =>
            simp [dumpsDict]
            omega
        | cons e tl2 =>
            simp [dumpsDict]
            omega
      · cases tl with
        | nil => cases hmem
        | cons e tl2 =>
            have := ih hmem
            simp [dumpsDict] at this ⊢
            omega

/-- Any JSON document starting with `'a'` fails to parse: no value starts
with `'a'`. -/
theorem parseVal_fail_a (fuel : Nat) (rest : Str) :
    parseVal (fuel + 1) ('a' :: rest) = Option.none := rfl

theorem json_loads_a_cons (rest : Str) : json_loads ('a' :: rest) = Option.none := by
  unfold json_loads
  rw [show ('a' :: rest).length + 1 = rest.length + 1 + 1 by simp, parseVal_fail_a]

/-- The oversized unparseable tool content: 250000 `'a'`s. -/
def bigContent : Str := List.replicate 250000 'a'

/-- A tool-role transcript message carrying `bigContent`. -/
def msgC8 : PyVal :=
  .dict [("role".toList, .str "tool".toList),
         ("tool_call_id".toList, .str "c1".toList),
         ("content".toList, .str bigContent)]

theorem bigContent_a_cons : bigContent = 'a' :: List.replicate 249999 'a' := by
  unfold bigContent
  rw [show (250000 : Nat) = 249999 + 1 from rfl, List.replicate_succ]

theorem totalTokens_singleton (m : PyVal) :
    totalTokens [m] = estimate_tokens (dumps m).length := by
  unfold totalTokens
  rw [List.map_cons, List.map_nil, List.sum_cons, List.sum_nil]
  exact Nat.add_zero _

/-- C8, counterexample: a transcript over budget containing one tool-role
message whose 250000-character content exceeds the 10000-token threshold but
is not valid JSON is returned *unchanged* — the `json.loads` failure is
swallowed (aiagent.py:127-128) and no summary replaces the content, contrary
to the claim that every over-threshold tool message is replaced. -/
theorem C8_unparseable_content_not_compressed :
    80000 < totalTokens [msgC8] ∧
      isToolRole msgC8 = true ∧
      10000 < estimate_tokens (msgContent msgC8).length ∧
      json_loads (msgContent msgC8) = Option.none ∧
      compress_messages_if_needed [msgC8] 80000 = [msgC8] := by
  have hcontent : msgContent msgC8 = bigContent := rfl
  have hlen : bigContent.length = 250000 := by
    unfold bigContent
    exact List.length_replicate 250000 'a' 
  have hloads : json_loads bigContent = Option.none := by
    rw [bigContent_a_cons]
    exact json_loads_a_cons _
  have htok : 10000 < estimate_tokens (msgContent msgC8).length := by
    rw [hcontent, hlen]
    norm_num [estimate_tokens]
  have hmem : ("content".toList, PyVal.str bigContent) ∈
      [("role".toList, PyVal.str "tool".toList),
       ("tool_call_id".toList, PyVal.str "c1".toList),
       ("content".toList, PyVal.str bigContent)] :=
    List.Mem.tail _ (List.Mem.tail _ (List.Mem.head _))
  have hdump : 250002 ≤ (dumps msgC8).length := by
    have h1 := dumpsDict_length_ge hmem
    have h2 : (dumps (PyVal.str bigContent)).length = 250002 := by
      unfold bigContent
      rw [length_dumps_str_replicate_a]
    have h3 := length_dumps_dict [("role".toList, PyVal.str "tool".toList),
      ("tool_call_id".toList, PyVal.str "c1".toList),
      ("content".toList, PyVal.str bigContent)]
    have h4 : dumps msgC8 = dumps (.dict [("role".toList, PyVal.str "tool".toList),
      ("tool_call_id".toList, PyVal.str "c1".toList),
      ("content".toList, PyVal.str bigContent)]) := rfl
    rw [h4, h3]
    omega
  have htotal : 80000 < totalTokens [msgC8] := by
    have e1 := totalTokens_singleton msgC8
    have e2 := estimate_tokens_mono hdump
    have e3 : estimate_tokens 250002 = 100000 := by norm_num [estimate_tokens]
    omega
  refine ⟨htotal, rfl, htok, by rw [hcontent]; exact hloads, ?_⟩
  unfold compress_messages_if_needed
  rw [if_neg (by omega)]
  have hcm : compressMsg msgC8 = msgC8 := by
    unfold compressMsg
    rw [if_pos ⟨rfl, htok⟩, hcontent, hloads]
  rw [List.map_cons, hcm]
  rfl

/-- C8 (amended): when the transcript is within budget nothing changes; when
it exceeds the budget, each message is transformed pointwise: a tool-role
message whose content exceeds the 10000-token threshold *and parses as JSON*
has its content replaced by the serialized summary (compressed flag, the
first 10 top-level keys if the result is a mapping — an empty list otherwise
— and a note); every other message, including over-threshold tool messages
whose content does not parse, is left unchanged. -/
theorem C8_compression_effect (messages : List PyVal) (max_tokens : Nat) :
    (totalTokens messages ≤ max_tokens →
      compress_messages_if_needed messages max_tokens = messages) ∧
    (max_tokens < totalTokens messages →
      ∀ (k : Nat) (m : PyVal), messages[k]? = some m →
        ((isToolRole m = false ∨ estimate_tokens (msgContent m).length ≤ 10000 ∨
            json_loads (msgContent m) = Option.none) →
          (compress_messages_if_needed messages max_tokens)[k]? = some m) ∧
        (∀ result, isToolRole m = true →
          10000 < estimate_tokens (msgContent m).length →
          json_loads (msgContent m) = some result →
          (compress_messages_if_needed messages max_tokens)[k]? =
            some (pySet m "content".toList (.str (dumps (compressedSummary result)))))) := by
  constructor
  · intro h
    unfold compress_messages_if_needed
    rw [if_pos h]
  · intro h k m hm
    have hout : compress_messages_if_needed messages max_tokens = messages.map compressMsg := by
      unfold compress_messages_if_needed
      rw [if_neg (by omega)]
    have hk : (messages.map compressMsg)[k]? = some (compressMsg m) := by
      rw [List.getElem?_map, hm]
      rfl
    constructor
    · intro hcond
      rw [hout, hk]
      by_cases hc : isToolRole m = true ∧ 10000 < estimate_tokens (msgContent m).length
      · rcases hcond with h1 | h2 | h3
        · exact absurd hc.1 (by simp [h1])
        · omega
        · unfold compressMsg
          rw [if_pos hc, h3]
      · unfold compressMsg
        rw [if_neg hc]
    · intro result h1 h2 h3
      rw [hout, hk]
      have : compressMsg m =
          pySet m "content".toList (.str (dumps (compressedSummary result))) := by
        unfold compressMsg
        rw [if_pos ⟨h1, h2⟩, h3]
      rw [this]

/-- A small in-budget tool message for the C8 witness. -/
def toolMsgSmall : PyVal :=
  .dict [("role".toList, .str "tool".toList),
         ("tool_call_id".toList, .str "c1".toList),
         ("content".toList, .str "\x7b\"ok\": true\x7d".toList)]

def msgsB : List PyVal := [toolMsgSmall]

/-- Witness for C8 (amended): within budget the transcript is unchanged;
over budget a small tool message is still unchanged (below the threshold). -/
theorem C8_compression_effect_witness :
    compress_messages_if_needed msgsB 100000 = msgsB ∧
      (compress_messages_if_needed msgsB 0)[0]? = some toolMsgSmall :=
  ⟨(C8_compression_effect msgsB 100000).1 (by decide),
   (((C8_compression_effect msgsB 0).2 (by decide)) 0 toolMsgSmall (by decide)).1
     (by decide)⟩


/-! ### The streaming conversation loop (aiagent.py:137-292, 312-323)

The model backend is an oracle `Backend : Nat → Nat → Except Str (List Delta)`
mapping (request number, retry attempt) to either a full delta stream for
that turn or a raised exception's text. Chunks without choices
(aiagent.py:201-202) are invisible to the loop and are not modelled. Tool
execution is a total function `Str → PyVal → PyVal` (`execute_tool` catches
every exception internally). Wall-clock fields of the token stats
(`start_time`, `elapsed_seconds`) are not modelled; every other field is. -/

/-- One streamed delta (aiagent.py:203): optional tool-call fragments and a
content fragment (empty string models an absent/falsy content). -/
structure Delta where
  tool_calls : List DeltaToolCall
  content : Str

structure TokenStats where
  prompt_tokens : Nat
  completion_tokens : Nat
  total_tokens : Nat
  api_calls : Nat
  tool_calls : Nat
  current_prompt : Str
deriving DecidableEq, Repr

/-- `reset_token_stats` (aiagent.py:72-77). -/
def initStats (prompt : Str) : TokenStats := ⟨0, 0, 0, 0, 0, prompt⟩

/-- The stream events of §6 of the spec; `think`/`say` here are the partial
events (`partial: True`). -/
inductive Event where
  | think (content : Str)
  | say (content : Str)
  | tool_call (tool_name : Str) (arguments : PyVal)
  | tool_result (tool_name : Str) (result : PyVal)
  | process_info (message : Str)
  | error (content : Str) (token_stats : TokenStats)
  | complete (think say : Str) (token_stats : TokenStats)
deriving DecidableEq

def isToolCallEv : Event → Bool
  | .tool_call _ _ => true
  | _ => false

def isToolResultEv : Event → Bool
  | .tool_result _ _ => true
  | _ => false

def isProcessInfoEv : Event → Bool
  | .process_info _ => true
  | _ => false

def isErrorEv : Event → Bool
  | .error _ _ => true
  | _ => false

def isCompleteEv : Event → Bool
  | .complete _ _ _ => true
  | _ => false

def evToolName : Event → Str
  | .tool_call n _ => n
  | .tool_result n _ => n
  | _ => []

def thinkOpen : Str := "<think>".toList

def thinkClose : Str := "</think>".toList

/-- Worker for `replaceSub`; the fuel bounds the number of steps (each step
consumes at least one character, so `s.length` suffices) and keeps the
recursion structural. -/
def replaceSubGo (pat rep : Str) : Nat → Str → Str
  | 0, s => s
  | _ + 1, [] => []
  | fuel + 1, c :: rest =>
      if pat ≠ [] ∧ pat.isPrefixOf (c :: rest) then
        rep ++ replaceSubGo pat rep fuel (rest.drop (pat.length - 1))
      else c :: replaceSubGo pat rep fuel rest

/-- Python `s.replace(pat, rep)` for non-empty `pat`: replace every
non-overlapping occurrence, left to right. -/
def replaceSub (pat rep s : Str) : Str := replaceSubGo pat rep s.length s

/-- Worker for `splitSub`, fuelled like `replaceSubGo`. -/
def splitSubGo (pat : Str) : Nat → Str → List Str
  | 0, _ => [[]]
  | _ + 1, [] => [[]]
  | fuel + 1, c :: rest =>
      if pat ≠ [] ∧ pat.isPrefixOf (c :: rest) then
        [] :: splitSubGo pat fuel (rest.drop (pat.length - 1))
      else
        match splitSubGo pat fuel rest with
        | [] => [[c]]
        | h :: t => (c :: h) :: t

/-- Python `s.split(pat)` for non-empty `pat`. -/
def splitSub (pat s : Str) : List Str := splitSubGo pat s.length s

/-- The per-turn accumulator state of aiagent.py:191-196 (plus the fragment
accumulator). -/
structure TurnState where
  collected_content : Str
  thinking_content : Str
  say_content : Str
  in_thinking : Bool
  has_tool_calls : Bool
  collected : List (Nat × ToolAcc)

def initTurnState : TurnState := ⟨[], [], [], false, false, []⟩

/-- The content-classification step (aiagent.py:217-237): accumulate the raw
content, detect `<think>`/`</think>` markers, and emit the partial
`think`/`say` events. -/
def processContent (st : TurnState) (content0 : Str) : TurnState × List Event :=
  let cc := st.collected_content ++ content0
  let in1 := if hasInfix thinkOpen content0 then true else st.in_thinking
  let content := if hasInfix thinkOpen content0 then replaceSub thinkOpen [] content0 else content0
  if hasInfix thinkClose content then
    let parts := splitSub thinkClose content
    let p0 := parts.headD []
    let thinking := if p0 ≠ [] then st.thinking_content ++ p0 else st.thinking_content
    match parts.get? 1 with
    | some p1 =>
        if p1 ≠ [] then
          ({ st with
              collected_content := cc
              in_thinking := false
              thinking_content := thinking
              say_content := st.say_content ++ p1 },
           [Event.say p1])
        else
          ({ st with
              collected_content := cc
              in_thinking := false
              thinking_content := thinking }, [])
    | Option.none =>
        ({ st with
            collected_content := cc
            in_thinking := false
            thinking_content := thinking }, [])
  else
    if in1 then
      ({ st with
          collected_content := cc
          in_thinking := in1
          thinking_content := st.thinking_content ++ content }, [Event.think content])
    else
      ({ st with
          collected_content := cc
          in_thinking := in1
          say_content := st.say_content ++ content }, [Event.say content])

/-- One delta (aiagent.py:200-237): fold its tool-call fragments into the
accumulator, then classify its content fragment. -/
def processDelta (st : TurnState) (d : Delta) : TurnState × List Event :=
  let st :=
    if d.tool_calls ≠ [] then
      { st with
          has_tool_calls := true
          collected := d.tool_calls.foldl collectFrag st.collected }
    else st
  if d.content ≠ [] then processContent st d.content else (st, [])

def processDeltas (st : TurnState) : List Delta → TurnState × List Event
  | [] => (st, [])
  | d :: ds =>
      let (st1, evs1) := processDelta st d
      let (st2, evs2) := processDeltas st1 ds
      (st2, evs1 ++ evs2)

/-- Python `sorted(keys)` (ascending); insertion sort, which on the distinct
`Nat` keys of the accumulator produces the unique ascending ordering. -/
def insertSorted (i : Nat) : List Nat → List Nat
  | [] => [i]
  | j :: rest => if i ≤ j then i :: j :: rest else j :: insertSorted i rest

def sortNats (l : List Nat) : List Nat := l.foldr insertSorted []

/-- aiagent.py:240-244: the assembled requests, in ascending index order. -/
def buildToolCalls (col : List (Nat × ToolAcc)) : List ToolAcc :=
  (sortNats (col.map Prod.fst)).map (fun i => (col.lookup i).getD emptyAcc)

/-- One entry of the `tool_calls` list stored in the assistant message
(aiagent.py:240-243). -/
def toolCallPy (a : ToolAcc) : PyVal :=
  .dict [("id".toList, .str a.tcId), ("type".toList, .str "function".toList),
         ("function".toList,
          .dict [("name".toList, .str a.name), ("arguments".toList, .str a.args)])]

/-- The assistant message of aiagent.py:245 (`collected_content or ""` is the
identity on our model, where absent content is the empty string). -/
def assistantMsg (content : Str) (reqs : List ToolAcc) : PyVal :=
  .dict [("role".toList, .str "assistant".toList), ("content".toList, .str content),
         ("tool_calls".toList, .list (reqs.map toolCallPy))]

/-- A tool-role transcript message (aiagent.py:261/264). -/
def toolMsg (tcid : Str) (content : Str) : PyVal :=
  .dict [("role".toList, .str "tool".toList), ("tool_call_id".toList, .str tcid),
         ("content".toList, .str content)]

def natRepr (n : Nat) : Str := (toString n).toList

def MAX_TOOL_RESULT_TOKENS : Nat := 80000

def MAX_HISTORY_TOKENS : Nat := 80000

/-- The truncation note appended by `_auto_chunk_large_result`
(aiagent.py:134). -/
def truncNote (n : Nat) : Str :=
  "\n\n... [数据过大已截断，原始长度: ".toList ++ natRepr n ++ " 字符]".toList

/-- `result_json[:50000]` plus the note (aiagent.py:134). -/
def truncatedOf (result_json : Str) : Str :=
  result_json.take 50000 ++ truncNote result_json.length

/-- `_auto_chunk_large_result` (aiagent.py:132-135). -/
def auto_chunk_large_result (result_json : Str) : PyVal :=
  .dict [("success".toList, .bool true), ("chunked".toList, .bool false),
         ("truncated".toList, .bool true), ("data".toList, .str (truncatedOf result_json)),
         ("message".toList, .str "数据过大已截断".toList)]

/-- The dispatch of one assembled tool call (aiagent.py:246-264): parse the
argument payload (empty dict on failure), emit `tool_call` (arguments
redacted), execute, and either (oversized serialized result) emit
`process_info` and a `tool_result` carrying a 500-character prefix of the
truncated stand-in while the transcript gets the full stand-in, or (normal)
emit `tool_result` with the redacted result while the transcript gets the
full unredacted serialization. -/
def runOneCall (exec : Str → PyVal → PyVal) (tc : ToolAcc) (messages : List PyVal)
    (stats : TokenStats) : List Event × List PyVal × TokenStats :=
  if estimate_tokens (dumps (exec tc.name ((json_loads tc.args).getD (.dict [])))).length >
      MAX_TOOL_RESULT_TOKENS then
    ([Event.tool_call tc.name (redact_sensitive_data ((json_loads tc.args).getD (.dict []))),
      Event.process_info "数据量过大，正在截断...".toList,
      Event.tool_result tc.name
        (.dict [("message".toList, .str "数据已截断".toList),
                ("data".toList,
                 .str ((truncatedOf (dumps (exec tc.name ((json_loads tc.args).getD (.dict []))))).take 500))])],
     messages ++ [toolMsg tc.tcId
        (dumps (auto_chunk_large_result (dumps (exec tc.name ((json_loads tc.args).getD (.dict []))))))],
     { stats with tool_calls := stats.tool_calls + 1 })
  else
    ([Event.tool_call tc.name (redact_sensitive_data ((json_loads tc.args).getD (.dict []))),
      Event.tool_result tc.name
        (redact_sensitive_data (exec tc.name ((json_loads tc.args).getD (.dict []))))],
     messages ++ [toolMsg tc.tcId (dumps (exec tc.name ((json_loads tc.args).getD (.dict []))))],
     { stats with tool_calls := stats.tool_calls + 1 })

/-- The `for tc_data in tool_calls_list` loop (aiagent.py:246-264). -/
def runCalls (exec : Str → PyVal → PyVal) :
    List ToolAcc → List PyVal → TokenStats → List Event × List PyVal × TokenStats
  | [], messages, stats => ([], messages, stats)
  | tc :: rest, messages, stats =>
      let r1 := runOneCall exec tc messages stats
      let r2 := runCalls exec rest r1.2.1 r1.2.2
      (r1.1 ++ r2.1, r2.2.1, r2.2.2)

/-- The model backend oracle: request number and retry attempt to outcome. -/
abbrev Backend := Nat → Nat → Except Str (List Delta)

/-- The retry loop of aiagent.py:173-189: up to 3 attempts; the sleeps
`2 * (retry + 1)` performed between attempts are returned alongside; on the
third failure the last exception propagates. -/
def tryRequest (b : Backend) (i : Nat) : Except Str (List Delta) × List Nat :=
  match b i 0 with
  | .ok ds => (.ok ds, [])
  | .error _ =>
      match b i 1 with
      | .ok ds => (.ok ds, [2])
      | .error _ =>
          match b i 2 with
          | .ok ds => (.ok ds, [2, 4])
          | .error e => (.error e, [2, 4])

inductive LoopOut where
  | completed
  | raised (e : Str) (st : TokenStats)
  | capped (messages : List PyVal) (st : TokenStats) (apiIdx : Nat)
deriving DecidableEq

def isCapped : LoopOut → Bool
  | .capped _ _ _ => true
  | _ => false

/-- The `while iteration < max_iterations` loop of aiagent.py:169-271,
recursing on the remaining iteration budget: compress the history, request
the model stream (retry loop; exhaustion raises), account the request,
consume the deltas, then either dispatch the assembled tool calls and
continue, or finalize the stats and emit `complete`. -/
def runLoop (exec : Str → PyVal → PyVal) (b : Backend) :
    Nat → Nat → List PyVal → TokenStats → List Event × LoopOut
  | 0, apiIdx, messages, stats => ([], .capped messages stats apiIdx)
  | fuel + 1, apiIdx, messages, stats =>
      let messages := compress_messages_if_needed messages MAX_HISTORY_TOKENS
      match (tryRequest b apiIdx).1 with
      | .error e => ([], .raised e stats)
      | .ok ds =>
          let stats := { stats with
              api_calls := stats.api_calls + 1
              prompt_tokens :=
                stats.prompt_tokens + estimate_tokens (dumps (.list messages)).length }
          let r := processDeltas initTurnState ds
          let st := r.1
          let evs := r.2
          if st.has_tool_calls ∧ st.collected ≠ [] then
            let reqs := buildToolCalls st.collected
            let messages := messages ++ [assistantMsg st.collected_content reqs]
            let rc := runCalls exec reqs messages stats
            let rl := runLoop exec b fuel (apiIdx + 1) rc.2.1 rc.2.2
            (evs ++ rc.1 ++ rl.1, rl.2)
          else
            let stats := { stats with completion_tokens :=
                stats.completion_tokens + estimate_tokens st.collected_content.length }
            let stats := { stats with total_tokens :=
                stats.prompt_tokens + stats.completion_tokens }
            (evs ++ [Event.complete st.thinking_content st.say_content stats], .completed)

/-- The system prompt of aiagent.py:144-147 with the user context inserted. -/
def user_context : Option (Str × Str) → Str
  | Option.none => []
  | some (u, c) =>
      if u = [] then []
      else "\n\n当前登录用户: ".toList ++ (if c ≠ [] then c else u) ++
        " (用户名: ".toList ++ u ++ ")。".toList

def system_prompt (ui : Option (Str × Str)) : Str :=
  "你是一个智能运维助手，可以使用工具帮助用户完成任务。\n重要规则：\n0. 回答运维、故障排查、部署、配置等问题时，优先调用 knowledge_retrieve 从知识库检索相关文档，再结合其他工具执行操作；若已提供“参考以下知识库内容”，则直接基于该内容与工具完成任务。\n1. 回答时请使用中文。".toList
    ++ user_context ui

/-- The seeded transcript (aiagent.py:160-163), for the configuration in
which the knowledge base is disabled (the claims do not touch retrieval
augmentation): system message plus the cleaned user prompt. -/
def initMessages (prompt : Str) (ui : Option (Str × Str)) : List PyVal :=
  [.dict [("role".toList, .str "system".toList), ("content".toList, .str (system_prompt ui))],
   .dict [("role".toList, .str "user".toList), ("content".toList, .str (clean_utf8 prompt))]]

/-- The fallback text of aiagent.py:292. -/
def capFallback : Str := "（已达到最大工具调用次数）".toList

/-- The forced-summary phase after the iteration cap (aiagent.py:273-292):
with a non-empty tool catalog, issue one final request (a single attempt)
and stream its answer, or emit the fixed fallback `complete` if it raises;
with no tools, do nothing. The summary instruction message appended to the
transcript (line 274) is part of the request payload, which the backend
oracle abstracts. -/
def runFinal (b : Backend) (apiIdx : Nat) (stats : TokenStats) (tools : List PyVal) :
    List Event :=
  if tools ≠ [] then
    match b apiIdx 0 with
    | .ok ds =>
        let final_content := ((ds.filter (fun d => d.content ≠ [])).map Delta.content).flatten
        let stats := { stats with completion_tokens :=
            stats.completion_tokens + estimate_tokens final_content.length }
        let stats := { stats with total_tokens :=
            stats.prompt_tokens + stats.completion_tokens }
        ((ds.filter (fun d => d.content ≠ [])).map (fun d => Event.say d.content)) ++
          [Event.complete [] final_content stats]
    | .error _ => [Event.complete [] capFallback stats]
  else []

/-- `_stream_chat_with_tools` (aiagent.py:137-292): the event sequence plus,
when the retry loop exhausted its attempts, the raised exception text and
the token stats at that moment. -/
def stream_chat (maxIter : Nat) (tools : List PyVal) (b : Backend)
    (exec : Str → PyVal → PyVal) (prompt : Str) (ui : Option (Str × Str)) :
    List Event × Option (Str × TokenStats) :=
  match runLoop exec b maxIter 0 (initMessages prompt ui) (initStats prompt) with
  | (evs, .completed) => (evs, Option.none)
  | (evs, .raised e st) => (evs, some (e, st))
  | (evs, .capped _ st apiIdx) => (evs ++ runFinal b apiIdx st tools, Option.none)

/-- `chat` with `stream=True` (aiagent.py:312-323): deliver the stream's
events; a propagated exception terminates the stream with one `error` event
carrying the exception text and the token stats. -/
def chat (maxIter : Nat) (tools : List PyVal) (b : Backend)
    (exec : Str → PyVal → PyVal) (prompt : Str) (ui : Option (Str × Str)) : List Event :=
  match stream_chat maxIter tools b exec prompt ui with
  | (evs, Option.none) => evs
  | (evs, some (e, st)) => evs ++ [Event.error e st]


/-! ### Characterization of the per-call dispatch -/

/-- The parsed argument payload (aiagent.py:248-251): empty mapping when the
raw payload is not valid JSON. -/
def argsOf (tc : ToolAcc) : PyVal := (json_loads tc.args).getD (.dict [])

def resultOf (exec : Str → PyVal → PyVal) (tc : ToolAcc) : PyVal :=
  exec tc.name (argsOf tc)

/-- The `tool_result` event payload on the truncation path (aiagent.py:260). -/
def truncPayload (result_json : Str) : PyVal :=
  .dict [("message".toList, .str "数据已截断".toList),
         ("data".toList, .str ((truncatedOf result_json).take 500))]

/-- The tool-role message a dispatched call appends to the transcript. -/
def toolMsgFor (exec : Str → PyVal → PyVal) (tc : ToolAcc) : PyVal :=
  if estimate_tokens (dumps (resultOf exec tc)).length > MAX_TOOL_RESULT_TOKENS then
    toolMsg tc.tcId (dumps (auto_chunk_large_result (dumps (resultOf exec tc))))
  else toolMsg tc.tcId (dumps (resultOf exec tc))

/-- The `tool_result` event a dispatched call emits. -/
def toolResultEvFor (exec : Str → PyVal → PyVal) (tc : ToolAcc) : Event :=
  if estimate_tokens (dumps (resultOf exec tc)).length > MAX_TOOL_RESULT_TOKENS then
    Event.tool_result tc.name (truncPayload (dumps (resultOf exec tc)))
  else Event.tool_result tc.name (redact_sensitive_data (resultOf exec tc))

theorem runOneCall_eq (exec : Str → PyVal → PyVal) (tc : ToolAcc)
    (messages : List PyVal) (stats : TokenStats) :
    runOneCall exec tc messages stats =
      (Event.tool_call tc.name (redact_sensitive_data (argsOf tc)) ::
         (if estimate_tokens (dumps (resultOf exec tc)).length > MAX_TOOL_RESULT_TOKENS then
           [Event.process_info "数据量过大，正在截断...".toList, toolResultEvFor exec tc]
         else [toolResultEvFor exec tc]),
       messages ++ [toolMsgFor exec tc],
       { stats with tool_calls := stats.tool_calls + 1 }) := by
  by_cases h : estimate_tokens
      (dumps (exec tc.name ((json_loads tc.args).getD (.dict [])))).length >
      MAX_TOOL_RESULT_TOKENS
  · simp only [runOneCall, toolResultEvFor, toolMsgFor, argsOf, resultOf, truncPayload,
      if_pos h]
  · simp only [runOneCall, toolResultEvFor, toolMsgFor, argsOf, resultOf, truncPayload,
      if_neg h]

theorem runOneCall_filter_tool_call (exec : Str → PyVal → PyVal) (tc : ToolAcc)
    (messages : List PyVal) (stats : TokenStats) :
    (runOneCall exec tc messages stats).1.filter isToolCallEv =
      [Event.tool_call tc.name (redact_sensitive_data (argsOf tc))] := by
  rw [runOneCall_eq]
  by_cases h : estimate_tokens (dumps (resultOf exec tc)).length > MAX_TOOL_RESULT_TOKENS <;>
    simp [h, isToolCallEv, toolResultEvFor, List.filter]

theorem runOneCall_filter_tool_result (exec : Str → PyVal → PyVal) (tc : ToolAcc)
    (messages : List PyVal) (stats : TokenStats) :
    (runOneCall exec tc messages stats).1.filter isToolResultEv =
      [toolResultEvFor exec tc] := by
  rw [runOneCall_eq]
  by_cases h : estimate_tokens (dumps (resultOf exec tc)).length > MAX_TOOL_RESULT_TOKENS <;>
    simp [h, isToolResultEv, toolResultEvFor, List.filter]

theorem runOneCall_filter_complete (exec : Str → PyVal → PyVal) (tc : ToolAcc)
    (messages : List PyVal) (stats : TokenStats) :
    (runOneCall exec tc messages stats).1.filter isCompleteEv = [] := by
  rw [runOneCall_eq]
  by_cases h : estimate_tokens (dumps (resultOf exec tc)).length > MAX_TOOL_RESULT_TOKENS <;>
    simp [h, isCompleteEv, toolResultEvFor, List.filter]

theorem runOneCall_filter_error (exec : Str → PyVal → PyVal) (tc : ToolAcc)
    (messages : List PyVal) (stats : TokenStats) :
    (runOneCall exec tc messages stats).1.filter isErrorEv = [] := by
  rw [runOneCall_eq]
  by_cases h : estimate_tokens (dumps (resultOf exec tc)).length > MAX_TOOL_RESULT_TOKENS <;>
    simp [h, isErrorEv, toolResultEvFor, List.filter]

theorem runCalls_msgs (exec : Str → PyVal → PyVal) (reqs : List ToolAcc)
    (messages : List PyVal) (stats : TokenStats) :
    (runCalls exec reqs messages stats).2.1 = messages ++ reqs.map (toolMsgFor exec) := by
  induction reqs generalizing messages stats with
  | nil => simp [runCalls]
  | cons tc rest ih =>
      show (runCalls exec (tc :: rest) messages stats).2.1 = _
      unfold runCalls
      dsimp only
      rw [ih, runOneCall_eq]
      simp

theorem runCalls_filter_tool_call (exec : Str → PyVal → PyVal) (reqs : List ToolAcc)
    (messages : List PyVal) (stats : TokenStats) :
    (runCalls exec reqs messages stats).1.filter isToolCallEv =
      reqs.map (fun tc => Event.tool_call tc.name (redact_sensitive_data (argsOf tc))) := by
  induction reqs generalizing messages stats with
  | nil => simp [runCalls]
  | cons tc rest ih =>
      unfold runCalls
      dsimp only
      rw [List.filter_append, ih, runOneCall_filter_tool_call]
      rfl

theorem runCalls_filter_tool_result (exec : Str → PyVal → PyVal) (reqs : List ToolAcc)
    (messages : List PyVal) (stats : TokenStats) :
    (runCalls exec reqs messages stats).1.filter isToolResultEv =
      reqs.map (toolResultEvFor exec) := by
  induction reqs generalizing messages stats with
  | nil => simp [runCalls]
  | cons tc rest ih =>
      unfold runCalls
      dsimp only
      rw [List.filter_append, ih, runOneCall_filter_tool_result]
      rfl

theorem runCalls_filter_complete (exec : Str → PyVal → PyVal) (reqs : List ToolAcc)
    (messages : List PyVal) (stats : TokenStats) :
    (runCalls exec reqs messages stats).1.filter isCompleteEv = [] := by
  induction reqs generalizing messages stats with
  | nil => simp [runCalls]
  | cons tc rest ih =>
      unfold runCalls
      dsimp only
      rw [List.filter_append, ih, runOneCall_filter_complete]
      rfl

theorem runCalls_filter_error (exec : Str → PyVal → PyVal) (reqs : List ToolAcc)
    (messages : List PyVal) (stats : TokenStats) :
    (runCalls exec reqs messages stats).1.filter isErrorEv = [] := by
  induction reqs generalizing messages stats with
  | nil => simp [runCalls]
  | cons tc rest ih =>
      unfold runCalls
      dsimp only
      rw [List.filter_append, ih, runOneCall_filter_error]
      rfl


theorem evToolName_toolResultEvFor (exec : Str → PyVal → PyVal) (tc : ToolAcc) :
    evToolName (toolResultEvFor exec tc) = tc.name := by
  unfold toolResultEvFor
  split <;> rfl

theorem map_evToolName_toolResultEvFor (exec : Str → PyVal → PyVal) (reqs : List ToolAcc) :
    (reqs.map (toolResultEvFor exec)).map evToolName = reqs.map ToolAcc.name := by
  induction reqs with
  | nil => rfl
  | cons tc rest ih =>
      simp only [List.map_cons]
      rw [ih, evToolName_toolResultEvFor]

theorem msgGet_toolMsgFor (exec : Str → PyVal → PyVal) (tc : ToolAcc) :
    msgGet (toolMsgFor exec tc) "tool_call_id".toList = some (.str tc.tcId) := by
  unfold toolMsgFor
  split <;> rfl

theorem map_msgGet_toolMsgFor (exec : Str → PyVal → PyVal) (reqs : List ToolAcc) :
    (reqs.map (toolMsgFor exec)).map (fun m => msgGet m "tool_call_id".toList) =
      reqs.map (fun tc => some (PyVal.str tc.tcId)) := by
  induction reqs with
  | nil => rfl
  | cons tc rest ih =>
      simp only [List.map_cons]
      rw [ih, msgGet_toolMsgFor]

/-- C2: for a model turn with `N ≥ 1` assembled tool-call requests, the
dispatch phase emits exactly `N` `tool_call` and `N` `tool_result` events
naming the requests in request order, and the transcript grows by exactly
the one assistant message carrying the `N` requests followed immediately by
exactly `N` tool-role messages, one per call in order, each carrying the
tool-call-id of the call it answers. -/
theorem C2_tool_turn (exec : Str → PyVal → PyVal) (reqs : List ToolAcc) (cc : Str)
    (messages : List PyVal) (stats : TokenStats) (h : reqs ≠ []) :
    ((runCalls exec reqs (messages ++ [assistantMsg cc reqs]) stats).1.filter
        isToolCallEv).map evToolName = reqs.map ToolAcc.name ∧
    ((runCalls exec reqs (messages ++ [assistantMsg cc reqs]) stats).1.filter
        isToolResultEv).map evToolName = reqs.map ToolAcc.name ∧
    (runCalls exec reqs (messages ++ [assistantMsg cc reqs]) stats).2.1 =
        messages ++ assistantMsg cc reqs :: reqs.map (toolMsgFor exec) ∧
    msgGet (assistantMsg cc reqs) "tool_calls".toList =
        some (.list (reqs.map toolCallPy)) ∧
    (reqs.map (toolMsgFor exec)).map (fun m => msgGet m "tool_call_id".toList) =
        reqs.map (fun tc => some (PyVal.str tc.tcId)) := by
  refine ⟨?_, ?_, ?_, rfl, map_msgGet_toolMsgFor exec reqs⟩
  · rw [runCalls_filter_tool_call, List.map_map]
    rfl
  · rw [runCalls_filter_tool_result]
    exact map_evToolName_toolResultEvFor exec reqs
  · rw [runCalls_msgs]
    simp

def execW2 : Str → PyVal → PyVal := fun n _ => .str ("out".toList ++ n)

def reqW2a : ToolAcc := ⟨"c1".toList, "shell_run".toList, "\x7b\x7d".toList⟩

def reqsW2 : List ToolAcc :=
  [reqW2a, ⟨"c2".toList, "git_repo_list".toList, "bad json".toList⟩]

/-- Witness for C2 at a concrete two-request turn. -/
theorem C2_tool_turn_witness :
    ((runCalls execW2 reqsW2 ([] ++ [assistantMsg "ok".toList reqsW2])
        (initStats [])).1.filter isToolCallEv).map evToolName =
      reqsW2.map ToolAcc.name ∧
    (runCalls execW2 reqsW2 ([] ++ [assistantMsg "ok".toList reqsW2])
        (initStats [])).2.1 =
      [] ++ assistantMsg "ok".toList reqsW2 :: reqsW2.map (toolMsgFor execW2) :=
  ⟨(C2_tool_turn execW2 reqsW2 "ok".toList [] (initStats []) (by decide)).1,
   (C2_tool_turn execW2 reqsW2 "ok".toList [] (initStats []) (by decide)).2.2.1⟩

/-- C6: for a dispatched call whose serialized result does not exceed the
threshold, the transcript's tool message carries the full unredacted
serialization while the `tool_result` event carries the redacted copy. -/
theorem C6_transcript_unredacted (exec : Str → PyVal → PyVal) (reqs : List ToolAcc)
    (messages : List PyVal) (stats : TokenStats) (k : Nat) (tc : ToolAcc)
    (hk : reqs[k]? = some tc)
    (hsmall : ¬ estimate_tokens (dumps (resultOf exec tc)).length > MAX_TOOL_RESULT_TOKENS) :
    ((runCalls exec reqs messages stats).2.1)[messages.length + k]? =
        some (toolMsg tc.tcId (dumps (resultOf exec tc))) ∧
    ((runCalls exec reqs messages stats).1.filter isToolResultEv)[k]? =
        some (Event.tool_result tc.name (redact_sensitive_data (resultOf exec tc))) := by
  constructor
  · rw [runCalls_msgs, List.getElem?_append_right (by omega)]
    have hsub : messages.length + k - messages.length = k := by omega
    rw [hsub, List.getElem?_map, hk]
    simp [toolMsgFor, hsmall]
  · rw [runCalls_filter_tool_result, List.getElem?_map, hk]
    simp [toolResultEvFor, hsmall]

/-- Witness for C6 at the first call of the concrete two-request turn. -/
theorem C6_transcript_unredacted_witness :
    ((runCalls execW2 reqsW2 [] (initStats [])).2.1)[(0 : Nat)]? =
        some (toolMsg "c1".toList (dumps (resultOf execW2 reqW2a))) ∧
    ((runCalls execW2 reqsW2 [] (initStats [])).1.filter isToolResultEv)[(0 : Nat)]? =
        some (Event.tool_result "shell_run".toList
          (redact_sensitive_data (resultOf execW2 reqW2a))) :=
  C6_transcript_unredacted execW2 reqsW2 [] (initStats []) 0 reqW2a
    (by decide) (by decide)

/-- C10: a tool-call request whose accumulated argument payload is not valid
JSON does not fail and surfaces no parse error: the `tool_call` event is
emitted with an empty argument mapping, the call behaves exactly as a call
whose payload is the empty JSON object, and no `error` event occurs. -/
theorem C10_unparseable_args (exec : Str → PyVal → PyVal) (tc : ToolAcc)
    (messages : List PyVal) (stats : TokenStats) (h : json_loads tc.args = Option.none) :
    (runOneCall exec tc messages stats).1.headD (Event.say []) =
        Event.tool_call tc.name (PyVal.dict []) ∧
    runOneCall exec tc messages stats =
        runOneCall exec ⟨tc.tcId, tc.name, "\x7b\x7d".toList⟩ messages stats ∧
    (runOneCall exec tc messages stats).1.filter isErrorEv = [] := by
  have hargs : argsOf tc = .dict [] := by simp [argsOf, h]
  refine ⟨?_, ?_, runOneCall_filter_error exec tc messages stats⟩
  · rw [runOneCall_eq]
    simp [hargs, show redact_sensitive_data (.dict []) = .dict [] from rfl]
  · have h2 : json_loads ("\x7b\x7d".toList) = some (.dict []) := by decide
    simp only [runOneCall, h, h2, Option.getD]

/-- Witness for C10: an unparseable payload `"oops"`. -/
theorem C10_unparseable_args_witness :
    (runOneCall execW2 ⟨"c9".toList, "svc_f".toList, "oops".toList⟩ [] (initStats
        [])).1.headD (Event.say []) =
      Event.tool_call "svc_f".toList (PyVal.dict []) ∧
    (runOneCall execW2 ⟨"c9".toList, "svc_f".toList, "oops".toList⟩ []
        (initStats [])).1.filter isErrorEv = [] :=
  ⟨(C10_unparseable_args execW2 ⟨"c9".toList, "svc_f".toList, "oops".toList⟩ []
      (initStats []) (by decide)).1,
   (C10_unparseable_args execW2 ⟨"c9".toList, "svc_f".toList, "oops".toList⟩ []
      (initStats []) (by decide)).2.2⟩


/-! ### C5: the truncation threshold -/

theorem hasInfix_replicate_a_of_ne {p : Str} {c : Char} (hc : c ∈ p) (hne : c ≠ 'a') :
    ∀ n : Nat, hasInfix p (List.replicate n 'a') = false
  | 0 => by
      cases p with
      | nil => cases hc
      | cons d p2 => rfl
  | n + 1 => by
      rw [List.replicate_succ]
      show (p.isPrefixOf ('a' :: List.replicate n 'a') || hasInfix p (List.replicate n 'a')) = false
      rw [hasInfix_replicate_a_of_ne hc hne n, Bool.or_false]
      by_contra hpre
      rw [Bool.not_eq_false] at hpre
      have hpfx : p <+: 'a' :: List.replicate n 'a' := List.isPrefixOf_iff_prefix.mp hpre
      have hmem : c ∈ 'a' :: List.replicate n 'a' := hpfx.subset hc
      rcases List.mem_cons.mp hmem with h1 | h2
      · exact hne h1
      · exact hne (List.eq_of_mem_replicate h2)

theorem strSensitive_replicate_a (n : Nat) :
    strSensitive (List.replicate n 'a') = false := by
  unfold strSensitive toLowerStr
  rw [List.map_replicate, show pyToLower 'a' = 'a' from rfl]
  simp only [sensitive_keys, List.any_cons, List.any_nil]
  rw [hasInfix_replicate_a_of_ne (p := "access_token".toList) (c := 'c') (by decide) (by decide) n,
    hasInfix_replicate_a_of_ne (p := "token".toList) (c := 't') (by decide) (by decide) n,
    hasInfix_replicate_a_of_ne (p := "password".toList) (c := 'p') (by decide) (by decide) n,
    hasInfix_replicate_a_of_ne (p := "secret".toList) (c := 's') (by decide) (by decide) n,
    hasInfix_replicate_a_of_ne (p := "api_key".toList) (c := 'p') (by decide) (by decide) n]
  rfl

theorem clean_utf8_replicate_a (n : Nat) :
    clean_utf8 (List.replicate n 'a') = List.replicate n 'a' := by
  apply clean_utf8_of_all_kept
  apply List.all_eq_true.mpr
  intro c hc
  rw [List.eq_of_mem_replicate hc]
  decide

theorem redact_str_replicate_a {n : Nat} (h : 50 < n) :
    redact_sensitive_data (.str (List.replicate n 'a')) = .str (List.replicate n 'a') := by
  have hcond : 50 < (List.replicate n 'a').length ∧
      (List.replicate n 'a').any isAlnumChar = true := by
    constructor
    · rw [List.length_replicate]
      exact h
    · exact List.any_eq_true.mpr ⟨'a', List.mem_replicate.mpr ⟨by omega, rfl⟩, by decide⟩
  have hsens : ¬ strSensitive (List.replicate n 'a') = true := by
    rw [strSensitive_replicate_a]
    simp
  rw [redact_sensitive_data, if_pos hcond, if_neg hsens, clean_utf8_replicate_a]

/-- The 119998-`'a'` tool result: serialized JSON length exactly 120000. -/
def big5 : Str := List.replicate 119998 'a'

def exec5 : Str → PyVal → PyVal := fun _ _ => .str big5

def req5 : ToolAcc := ⟨"c1".toList, "shell_run".toList, "\x7b\x7d".toList⟩

theorem args_req5 : argsOf req5 = .dict [] := by decide

/-- C5, counterexample: a tool result whose serialized form is exactly
120,000 characters is *not* truncated — the code's threshold is 80,000
estimated tokens, i.e. 200,000 characters, not 50,000 characters. No
`process_info` event is emitted and the `tool_result` event carries the
redacted (here: unchanged) full result. -/
theorem C5_no_truncation_at_120000 :
    (dumps (resultOf exec5 req5)).length = 120000 ∧
    (runOneCall exec5 req5 [] (initStats [])).1 =
      [Event.tool_call "shell_run".toList (.dict []),
       Event.tool_result "shell_run".toList (.str big5)] ∧
    (runOneCall exec5 req5 [] (initStats [])).1.filter isProcessInfoEv = [] := by
  have hres : resultOf exec5 req5 = .str big5 := rfl
  have hlen : (dumps (.str big5)).length = 120000 := by
    unfold big5
    rw [length_dumps_str_replicate_a]
  have hsmall : ¬ estimate_tokens (dumps (resultOf exec5 req5)).length >
      MAX_TOOL_RESULT_TOKENS := by
    rw [hres, hlen]
    norm_num [estimate_tokens, MAX_TOOL_RESULT_TOKENS]
  have hred : redact_sensitive_data (.str big5) = .str big5 := by
    unfold big5
    exact redact_str_replicate_a (by norm_num)
  have hevents : (runOneCall exec5 req5 [] (initStats [])).1 =
      [Event.tool_call "shell_run".toList (.dict []),
       Event.tool_result "shell_run".toList (.str big5)] := by
    rw [runOneCall_eq, if_neg hsmall]
    unfold toolResultEvFor
    rw [if_neg hsmall, hres, hred, args_req5]
    rfl
  refine ⟨by rw [hres, hlen], hevents, ?_⟩
  rw [hevents]
  rfl

/-- The 200001-`'a'` tool result: serialized JSON length 200003, which is
80001 estimated tokens — just above the threshold. -/
def big5b : Str := List.replicate 200001 'a'

def exec5b : Str → PyVal → PyVal := fun _ _ => .str big5b

theorem take50000_big5b :
    List.take 50000 (('"' :: List.replicate 200001 'a') ++ ['"']) =
      '"' :: List.replicate 49999 'a' := by
  rw [List.take_append_eq_append_take]
  rw [show (50000 : Nat) = 49999 + 1 from rfl, List.take_succ_cons, List.take_replicate]
  rw [show (49999 : Nat) ⊓ 200001 = 49999 from by norm_num]
  rw [show List.length ('"' :: List.replicate 200001 'a') = 200002 from by
    rw [List.length_cons, List.length_replicate]]
  rw [show (49999 + 1 - 200002 : Nat) = 0 from by norm_num, List.take_zero, List.append_nil]

theorem take500_prefix (t : Str) :
    List.take 500 (('"' :: List.replicate 49999 'a') ++ t) =
      '"' :: List.replicate 499 'a' := by
  rw [List.take_append_eq_append_take]
  rw [show (500 : Nat) = 499 + 1 from rfl, List.take_succ_cons, List.take_replicate]
  rw [show (499 : Nat) ⊓ 49999 = 499 from by norm_num]
  rw [show List.length ('"' :: List.replicate 49999 'a') = 50000 from by
    rw [List.length_cons, List.length_replicate]]
  rw [show (499 + 1 - 50000 : Nat) = 0 from by norm_num, List.take_zero, List.append_nil]

theorem take_trunc_big5b :
    (truncatedOf (dumps (.str big5b))).take 500 = '"' :: List.replicate 499 'a' := by
  have hd : dumps (.str big5b) = ('"' :: List.replicate 200001 'a') ++ ['"'] := by
    show dumpsStr big5b = _
    unfold big5b
    rw [dumpsStr_replicate_a]
  unfold truncatedOf
  rw [hd, take50000_big5b, take500_prefix]

/-- C5 (amended): truncation triggers at the 80,000-estimated-token
threshold (≈200,000 characters), not at a 50,000-character one. For a tool
result serialized to 200,003 characters, `process_info` is emitted followed
by a `tool_result` whose payload carries a fixed note and a 500-character
prefix of the truncated stand-in, while the transcript receives the
serialized stand-in holding the 50,000-character prefix of the result plus
a note of the original total length. -/
theorem C5_truncation_above_threshold :
    (dumps (resultOf exec5b req5)).length = 200003 ∧
    MAX_TOOL_RESULT_TOKENS < estimate_tokens (dumps (resultOf exec5b req5)).length ∧
    (runOneCall exec5b req5 [] (initStats [])).1 =
      [Event.tool_call "shell_run".toList (.dict []),
       Event.process_info "数据量过大，正在截断...".toList,
       Event.tool_result "shell_run".toList
         (.dict [("message".toList, .str "数据已截断".toList),
                 ("data".toList, .str ('"' :: List.replicate 499 'a'))])] ∧
    (runOneCall exec5b req5 [] (initStats [])).2.1 =
      [toolMsg "c1".toList (dumps (auto_chunk_large_result (dumps (resultOf exec5b req5))))] ∧
    truncatedOf (dumps (resultOf exec5b req5)) =
      (dumps (resultOf exec5b req5)).take 50000 ++ truncNote 200003 ∧
    ((dumps (resultOf exec5b req5)).take 50000).length = 50000 := by
  have hres : resultOf exec5b req5 = .str big5b := rfl
  have hlen : (dumps (.str big5b)).length = 200003 := by
    unfold big5b
    rw [length_dumps_str_replicate_a]
  have hbig : estimate_tokens (dumps (resultOf exec5b req5)).length >
      MAX_TOOL_RESULT_TOKENS := by
    rw [hres, hlen]
    norm_num [estimate_tokens, MAX_TOOL_RESULT_TOKENS]
  refine ⟨by rw [hres, hlen], hbig, ?_, ?_, ?_, ?_⟩
  · rw [runOneCall_eq, if_pos hbig]
    unfold toolResultEvFor
    rw [if_pos hbig]
    unfold truncPayload
    rw [hres, take_trunc_big5b, args_req5]
    rfl
  · rw [runOneCall_eq]
    dsimp only
    unfold toolMsgFor
    rw [if_pos hbig]
    rfl
  · unfold truncatedOf
    rw [hres, hlen]
  · rw [List.length_take, hres, hlen]
    norm_num


/-! ### Loop-level event accounting, for C3 and C9 -/

def isTextEv : Event → Bool
  | .think _ => true
  | .say _ => true
  | _ => false

theorem processContent_all_text (st : TurnState) (c : Str) :
    ((processContent st c).2).all isTextEv = true := by
  unfold processContent
  dsimp only
  repeat' split
  all_goals rfl

theorem processDelta_all_text (st : TurnState) (d : Delta) :
    ((processDelta st d).2).all isTextEv = true := by
  unfold processDelta
  dsimp only
  split
  · exact processContent_all_text _ _
  · rfl

theorem processDeltas_all_text (st : TurnState) (ds : List Delta) :
    ((processDeltas st ds).2).all isTextEv = true := by
  induction ds generalizing st with
  | nil => rfl
  | cons d rest ih =>
      unfold processDeltas
      dsimp only
      rw [List.all_append, processDelta_all_text, ih]
      rfl

theorem filter_complete_of_text {evs : List Event} (h : evs.all isTextEv = true) :
    evs.filter isCompleteEv = [] := by
  rw [List.filter_eq_nil_iff]
  intro e he
  have ht := List.all_eq_true.mp h e he
  cases e <;> simp_all [isTextEv, isCompleteEv]

theorem filter_error_of_text {evs : List Event} (h : evs.all isTextEv = true) :
    evs.filter isErrorEv = [] := by
  rw [List.filter_eq_nil_iff]
  intro e he
  have ht := List.all_eq_true.mp h e he
  cases e <;> simp_all [isTextEv, isErrorEv]

theorem runLoop_filters (exec : Str → PyVal → PyVal) (b : Backend) :
    ∀ (fuel apiIdx : Nat) (messages : List PyVal) (stats : TokenStats),
      (runLoop exec b fuel apiIdx messages stats).1.filter isErrorEv = [] ∧
      ((runLoop exec b fuel apiIdx messages stats).1.filter isCompleteEv).length =
        (match (runLoop exec b fuel apiIdx messages stats).2 with
         | .completed => 1
         | _ => 0)
  | 0, apiIdx, messages, stats => by
      constructor <;> rfl
  | fuel + 1, apiIdx, messages, stats => by
      unfold runLoop
      dsimp only
      cases h : (tryRequest b apiIdx).1 with
      | error e =>
          constructor <;> rfl
      | ok ds =>
          dsimp only
          split
          · constructor
            · rw [List.filter_append, List.filter_append,
                filter_error_of_text (processDeltas_all_text _ _),
                runCalls_filter_error,
                (runLoop_filters exec b fuel (apiIdx + 1) _ _).1]
              rfl
            · rw [List.filter_append, List.filter_append,
                filter_complete_of_text (processDeltas_all_text _ _),
                runCalls_filter_complete]
              simpa using (runLoop_filters exec b fuel (apiIdx + 1) _ _).2
          · constructor
            · rw [List.filter_append, filter_error_of_text (processDeltas_all_text _ _)]
              rfl
            · rw [List.filter_append, filter_complete_of_text (processDeltas_all_text _ _)]
              rfl

theorem filter_map_say_complete (xs : List Delta) :
    ((xs.map (fun d => Event.say d.content)).filter isCompleteEv) = [] := by
  induction xs with
  | nil => rfl
  | cons x rest ih => simp [List.filter, isCompleteEv, ih]

theorem filter_map_say_error (xs : List Delta) :
    ((xs.map (fun d => Event.say d.content)).filter isErrorEv) = [] := by
  induction xs with
  | nil => rfl
  | cons x rest ih => simp [List.filter, isErrorEv, ih]

theorem runFinal_filters (b : Backend) (i : Nat) (st : TokenStats) (tools : List PyVal)
    (ht : tools ≠ []) :
    ((runFinal b i st tools).filter isCompleteEv).length = 1 ∧
    (runFinal b i st tools).filter isErrorEv = [] := by
  unfold runFinal
  rw [if_pos ht]
  cases h : b i 0 with
  | ok ds =>
      dsimp only
      constructor
      · rw [List.filter_append, filter_map_say_complete]
        rfl
      · rw [List.filter_append, filter_map_say_error]
        rfl
  | error e => constructor <;> rfl


/-- C3, counterexample: an invocation that reaches the iteration cap with an
*empty tool catalog* ends with no `complete` event at all — aiagent.py:273
guards the forced-summary phase with `if tools:`, so the generator simply
ends. (Here the cap is 0 so the loop body never runs; no backend call is
made.) -/
theorem C3_no_tools_no_complete :
    isCapped (runLoop (fun _ _ => PyVal.nullv) (fun _ _ => .error "x".toList) 0 0
        (initMessages [] Option.none) (initStats [])).2 = true ∧
    chat 0 [] (fun _ _ => .error "x".toList) (fun _ _ => PyVal.nullv) [] Option.none
      = [] :=
  ⟨rfl, rfl⟩

/-- C3 (amended): provided the tool catalog is non-empty, an invocation that
reaches the configured maximum iteration count without natural completion
emits exactly one `complete` event and no `error` event, even if the final
forced-summary request fails (the fixed fallback message is used); with an
empty catalog the invocation ends with no `complete` event. -/
theorem C3_cap_completes (maxIter : Nat) (tools : List PyVal) (b : Backend)
    (exec : Str → PyVal → PyVal) (prompt : Str) (ui : Option (Str × Str))
    (hcap : isCapped (runLoop exec b maxIter 0 (initMessages prompt ui)
        (initStats prompt)).2 = true)
    (ht : tools ≠ []) :
    ((chat maxIter tools b exec prompt ui).filter isCompleteEv).length = 1 ∧
    (chat maxIter tools b exec prompt ui).filter isErrorEv = [] := by
  have hf := runLoop_filters exec b maxIter 0 (initMessages prompt ui) (initStats prompt)
  unfold chat stream_chat
  rcases hrl : runLoop exec b maxIter 0 (initMessages prompt ui) (initStats prompt) with
    ⟨evs, out⟩
  rw [hrl] at hcap hf
  cases out with
  | completed => simp [isCapped] at hcap
  | raised e st => simp [isCapped] at hcap
  | capped msgs st apiIdx =>
      dsimp only at hf ⊢
      have hfin := runFinal_filters b apiIdx st tools ht
      constructor
      · rw [List.filter_append, List.length_append, hfin.1]
        omega
      · rw [List.filter_append, hf.1, hfin.2]
        rfl

def bW3 : Backend := fun i _ =>
  if i = 0 then .ok [⟨[⟨0, "c1".toList, "shell_run".toList, "\x7b\x7d".toList⟩], []⟩]
  else .error "final boom".toList

/-- Witness for C3 (amended): cap of 1 reached after one tool-call turn, and
the forced-summary request itself fails; exactly one `complete` (with the
fallback) and no `error`. -/
theorem C3_cap_completes_witness :
    ((chat 1 [PyVal.str "t".toList] bW3 (fun _ _ => PyVal.nullv) [] Option.none).filter
        isCompleteEv).length = 1 ∧
    (chat 1 [PyVal.str "t".toList] bW3 (fun _ _ => PyVal.nullv) [] Option.none).filter
        isErrorEv = [] :=
  C3_cap_completes 1 [PyVal.str "t".toList] bW3 (fun _ _ => PyVal.nullv) [] Option.none
    (by decide) (by decide)

/-- C9: the model request is attempted up to 3 times, sleeping `2*(retry+1)`
seconds between attempts (a strictly increasing backoff of 2 then 4); a
later attempt's success recovers, and if all three attempts fail the last
exception propagates: the invocation terminates with exactly one `error`
event, carrying the exception text and the token statistics, after the
events already emitted, and no `complete` event occurs. -/
theorem C9_retry_and_fatal_error :
    (∀ (b : Backend) (i : Nat) (ds : List Delta), b i 0 = .ok ds →
        tryRequest b i = (.ok ds, [])) ∧
    (∀ (b : Backend) (i : Nat) (e1 : Str) (ds : List Delta),
        b i 0 = .error e1 → b i 1 = .ok ds → tryRequest b i = (.ok ds, [2])) ∧
    (∀ (b : Backend) (i : Nat) (e1 e2 : Str) (ds : List Delta),
        b i 0 = .error e1 → b i 1 = .error e2 → b i 2 = .ok ds →
        tryRequest b i = (.ok ds, [2, 4])) ∧
    (∀ (b : Backend) (i : Nat) (e1 e2 e3 : Str),
        b i 0 = .error e1 → b i 1 = .error e2 → b i 2 = .error e3 →
        tryRequest b i = (.error e3, [2, 4]) ∧ List.Chain' (· < ·) [2, 4]) ∧
    (∀ (maxIter : Nat) (tools : List PyVal) (b : Backend)
        (exec : Str → PyVal → PyVal) (prompt : Str) (ui : Option (Str × Str))
        (e : Str) (st : TokenStats),
        (stream_chat maxIter tools b exec prompt ui).2 = some (e, st) →
        chat maxIter tools b exec prompt ui =
          (stream_chat maxIter tools b exec prompt ui).1 ++ [Event.error e st] ∧
        (chat maxIter tools b exec prompt ui).filter isErrorEv = [Event.error e st] ∧
        (chat maxIter tools b exec prompt ui).filter isCompleteEv = []) := by
  refine ⟨?_, ?_, ?_, ?_, ?_⟩
  · intro b i ds h0
    unfold tryRequest
    rw [h0]
  · intro b i e1 ds h0 h1
    unfold tryRequest
    rw [h0, h1]
  · intro b i e1 e2 ds h0 h1 h2
    unfold tryRequest
    rw [h0, h1, h2]
  · intro b i e1 e2 e3 h0 h1 h2
    refine ⟨?_, by norm_num [List.chain'_cons]⟩
    unfold tryRequest
    rw [h0, h1, h2]
  · intro maxIter tools b exec prompt ui e st hsome
    have hf := runLoop_filters exec b maxIter 0 (initMessages prompt ui) (initStats prompt)
    unfold chat stream_chat
    unfold stream_chat at hsome
    rcases hrl : runLoop exec b maxIter 0 (initMessages prompt ui) (initStats prompt) with
      ⟨evs, out⟩
    rw [hrl] at hsome hf
    cases out with
    | completed => simp at hsome
    | capped msgs st2 apiIdx => simp at hsome
    | raised e2 st2 =>
        dsimp only at hsome hf ⊢
        have he : e2 = e ∧ st2 = st := by
          have := Option.some.inj hsome
          exact ⟨congrArg Prod.fst this, congrArg Prod.snd this⟩
        obtain ⟨rfl, rfl⟩ := he
        refine ⟨rfl, ?_, ?_⟩
        · rw [List.filter_append, hf.1]
          rfl
        · rw [List.filter_append]
          have h0 : (evs.filter isCompleteEv).length = 0 := hf.2
          rw [List.length_eq_zero.mp h0]
          rfl

def bFail : Backend := fun _ _ => .error "boom".toList

/-- Witness for C9: a backend failing all three attempts makes `tryRequest`
surface the last exception with sleeps 2 then 4, and the invocation ends in
exactly one `error` event with no `complete`. -/
theorem C9_retry_and_fatal_error_witness :
    tryRequest bFail 0 = (.error "boom".toList, [2, 4]) ∧
    (chat 1 [PyVal.str "t".toList] bFail (fun _ _ => PyVal.nullv) [] Option.none).filter
        isErrorEv = [Event.error "boom".toList (initStats [])] ∧
    (chat 1 [PyVal.str "t".toList] bFail (fun _ _ => PyVal.nullv) [] Option.none).filter
        isCompleteEv = [] :=
  ⟨(C9_retry_and_fatal_error.2.2.2.1 bFail 0 "boom".toList "boom".toList "boom".toList
      rfl rfl rfl).1,
   (C9_retry_and_fatal_error.2.2.2.2 1 [PyVal.str "t".toList] bFail
      (fun _ _ => PyVal.nullv) [] Option.none "boom".toList (initStats [])
      (by decide)).2.1,
   (C9_retry_and_fatal_error.2.2.2.2 1 [PyVal.str "t".toList] bFail
      (fun _ _ => PyVal.nullv) [] Option.none "boom".toList (initStats [])
      (by decide)).2.2⟩

end SDA
